import Mathlib

/-!
Verification development for the tg-reminder bot's natural-language task
extraction core and recurrence advancer.

Embedded source files: `src/parser.py` (extraction pipeline), `src/utils.py`
(`next_due_date`, `_add_months`, `_days_in_month`), and the completion logic
`_complete_task` of `src/bot.py`.

Modelling conventions:
* Text is `List Char` (Unicode code points, like Python `str`).
* Python `datetime` values (all carrying the one configured fixed-offset
  timezone, so arithmetic and comparison are plain wall-clock arithmetic)
  are a day number in the proleptic Gregorian calendar (epoch 1970-01-01)
  plus a second-of-day; `timedelta` is a signed number of seconds (every
  delta built by this code is a whole number of seconds).
* The external `dateparser` backend (`dateparser.parse`, `search_dates`)
  is an oracle parameter (`DPOracle`); the Perplexity network call is an
  oracle value (`Option LlmData`).  Everything else is translated from the
  repository source.
* The regular expressions of `parser.py` are compiled by hand into
  executable matchers with Python `re` semantics (leftmost match, ordered
  alternation, greedy quantifiers, word boundaries over `\w`); inputs are
  assumed newline-free, which holds for every text considered here.
-/

namespace TgReminder

/-- Text, as a list of Unicode code points (Python `str`). -/
abbrev Str := List Char

/-- Convert a Lean string literal to the text model. -/
def txt (s : String) : Str := s.data

/-! ## Calendar model (Python `datetime`) -/

/-- Civil (year, month, day) triple. -/
structure Civil where
  year : Int
  month : Int
  day : Int
  deriving Repr, DecidableEq

/-- Day number of a civil date, proleptic Gregorian, epoch 1970-01-01 = 0
(standard `days_from_civil` algorithm, floor division throughout). -/
def daysFromCivil (y m d : Int) : Int :=
  let y' := if m ≤ 2 then y - 1 else y
  let era := y'/ 400
  let yoe := y' - era * 400
  let doy := (153 * (if m > 2 then m - 3 else m + 9) + 2)/ 5 + d - 1
  let doe := yoe * 365 + yoe/ 4 - yoe/ 100 + doy
  era * 146097 + doe - 719468

/-- Civil date of a day number (standard `civil_from_days` algorithm). -/
def civilFromDays (z : Int) : Civil :=
  let z' := z + 719468
  let era := z'/ 146097
  let doe := z' - era * 146097
  let yoe := (doe - doe/ 1460 + doe/ 36524 - doe/ 146096)/ 365
  let y := yoe + era * 400
  let doy := doe - (365 * yoe + yoe/ 4 - yoe/ 100)
  let mp := (5 * doy + 2)/ 153
  let d := doy - (153 * mp + 2)/ 5 + 1
  let m := mp + (if mp < 10 then 3 else -9)
  ⟨y + (if m ≤ 2 then 1 else 0), m, d⟩

/-- Model of a Python `datetime`: day number plus second-of-day. -/
structure PyDateTime where
  days : Int
  tod : Int
  deriving Repr, DecidableEq

/-- Total seconds since the epoch. -/
def toSecs (dt : PyDateTime) : Int := dt.days * 86400 + dt.tod

/-- Datetime from total seconds (normalized second-of-day). -/
def ofSecs (s : Int) : PyDateTime := ⟨s/ 86400, s% 86400⟩

/-- `datetime + timedelta` (seconds). -/
def addSecs (dt : PyDateTime) (delta : Int) : PyDateTime := ofSecs (toSecs dt + delta)

/-- A datetime as Python keeps it: second-of-day in range. -/
def Normalized (dt : PyDateTime) : Prop := 0 ≤ dt.tod ∧ dt.tod < 86400

instance (dt : PyDateTime) : Decidable (Normalized dt) := by
  unfold Normalized; infer_instance

/-- Build a datetime from civil fields and hour/minute (seconds zero). -/
def mkDT (y m d h mi : Int) : PyDateTime := ⟨daysFromCivil y m d, h * 3600 + mi * 60⟩

/-- The `.hour` accessor. -/
def hourOf (dt : PyDateTime) : Int := dt.tod/ 3600

/-- The `.minute` accessor. -/
def minuteOf (dt : PyDateTime) : Int := (dt.tod% 3600)/ 60

theorem addSecs_whole_days (dt : PyDateTime) (h : Normalized dt) (n : Int) :
    addSecs dt (n * 86400) = ⟨dt.days + n, dt.tod⟩ := by
  obtain ⟨h1, h2⟩ := h
  unfold addSecs ofSecs toSecs
  congr 1 <;> omega

theorem toSecs_addSecs (dt : PyDateTime) (delta : Int) :
    toSecs (addSecs dt delta) = toSecs dt + delta := by
  unfold addSecs ofSecs toSecs
  dsimp only
  omega

/-! ## Python string primitives -/

/-- Python `str.lower` on one character, for the alphabets this repository
uses (ASCII and Russian Cyrillic, including Ё). -/
def charLower (c : Char) : Char :=
  match c with
  | 'A' => 'a' | 'B' => 'b' | 'C' => 'c' | 'D' => 'd' | 'E' => 'e'
  | 'F' => 'f' | 'G' => 'g' | 'H' => 'h' | 'I' => 'i' | 'J' => 'j'
  | 'K' => 'k' | 'L' => 'l' | 'M' => 'm' | 'N' => 'n' | 'O' => 'o'
  | 'P' => 'p' | 'Q' => 'q' | 'R' => 'r' | 'S' => 's' | 'T' => 't'
  | 'U' => 'u' | 'V' => 'v' | 'W' => 'w' | 'X' => 'x' | 'Y' => 'y'
  | 'Z' => 'z'
  | 'А' => 'а' | 'Б' => 'б' | 'В' => 'в' | 'Г' => 'г' | 'Д' => 'д'
  | 'Е' => 'е' | 'Ж' => 'ж' | 'З' => 'з' | 'И' => 'и' | 'Й' => 'й'
  | 'К' => 'к' | 'Л' => 'л' | 'М' => 'м' | 'Н' => 'н' | 'О' => 'о'
  | 'П' => 'п' | 'Р' => 'р' | 'С' => 'с' | 'Т' => 'т' | 'У' => 'у'
  | 'Ф' => 'ф' | 'Х' => 'х' | 'Ц' => 'ц' | 'Ч' => 'ч' | 'Ш' => 'ш'
  | 'Щ' => 'щ' | 'Ъ' => 'ъ' | 'Ы' => 'ы' | 'Ь' => 'ь' | 'Э' => 'э'
  | 'Ю' => 'ю' | 'Я' => 'я' | 'Ё' => 'ё'
  | c => c

/-- Whitespace as Python `\s` / `str.strip` see it (ASCII part). -/
def isPySpace (c : Char) : Bool :=
  c == ' ' || c == '\t' || c == '\n' || c == '\r' || c == '\x0b' || c == '\x0c'

/-- Python regex `\w` over the alphabets in play (ASCII alphanumerics,
underscore, Cyrillic block). -/
def isWordChar (c : Char) : Bool :=
  c.isAlphanum || c == '_' || (1024 ≤ c.toNat && c.toNat ≤ 1279)

/-- Python `str.lower`. -/
def pyLower (s : Str) : Str := s.map charLower

/-- Python `str.strip`. -/
def pyStrip (s : Str) : Str :=
  ((s.dropWhile isPySpace).reverse.dropWhile isPySpace).reverse

/-- Helper of `pySplitWS`: accumulates the current word reversed. -/
def splitWSAux : Str → Str → List Str
  | [], acc => if acc.isEmpty then [] else [acc.reverse]
  | c :: rest, acc =>
    if isPySpace c then
      (if acc.isEmpty then [] else [acc.reverse]) ++ splitWSAux rest []
    else splitWSAux rest (c :: acc)

/-- Python `str.split()` with no argument: split on whitespace runs and
drop empty pieces. -/
def pySplitWS (s : Str) : List Str := splitWSAux s []

/-- Python `str.isdigit` (the strings this code tests are ASCII). -/
def pyIsdigit (s : Str) : Bool := !s.isEmpty && s.all Char.isDigit

/-- Python `int()` applied to a digit string. -/
def pyToNat (s : Str) : Nat := s.foldl (fun a c => 10 * a + (c.toNat - 48)) 0

/-- Decimal digit character (argument below 10). -/
def digitChar10 (d : Nat) : Char :=
  match d with
  | 0 => '0' | 1 => '1' | 2 => '2' | 3 => '3' | 4 => '4'
  | 5 => '5' | 6 => '6' | 7 => '7' | 8 => '8' | _ => '9'

/-- Helper of `natStr`; the first argument is recursion fuel (`n + 1`
always suffices: one digit per division by ten).  Structural recursion on
the fuel keeps the definition kernel-reducible. -/
def natStrAux : Nat → Nat → Str → Str
  | 0, _, acc => acc
  | fuel + 1, n, acc =>
    let d := digitChar10 (n % 10)
    let n' := n / 10
    if n' = 0 then d :: acc else natStrAux fuel n' (d :: acc)

/-- Python `str(n)` / f-string decimal rendering of a nonnegative int. -/
def natStr (n : Nat) : Str := natStrAux (n + 1) n []

/-! ## `src/utils.py`: the recurrence advancer -/

/-- `_days_in_month(year, month)`: Python builds the first day of the
following month and steps back one day. -/
def daysInMonthPy (year month : Int) : Int :=
  let nextMonth := if month == 12 then daysFromCivil (year + 1) 1 1 else daysFromCivil year (month + 1) 1
  (civilFromDays (nextMonth - 1)).day

/-- `_add_months(dt, months)`.  Python `//`/`%` are floor division, which
agrees with Lean `/`/`%` on the positive divisor 12. -/
def addMonths (dt : PyDateTime) (months : Int) : PyDateTime :=
  let c := civilFromDays dt.days
  let year := c.year + (c.month - 1 + months) / 12
  let month := (c.month - 1 + months) % 12 + 1
  let day := min c.day (daysInMonthPy year month)
  { dt with days := daysFromCivil year month day }

/-- `next_due_date(due_at, repeat_rule)` on the idealized unbounded
calendar (`next_due_dateChecked` below adds CPython's year-range checks).
The `rr.isEmpty` test models `not repeat_rule` catching the empty string. -/
def next_due_date (due_at : Option PyDateTime) (repeat_rule : Option Str) : Option PyDateTime :=
  match due_at, repeat_rule with
  | some due, some rr =>
    if rr.isEmpty then none
    else
      let rule := pyStrip (pyLower rr)
      if rule = txt "daily" then some (addSecs due 86400)
      else if rule = txt "weekly" then some (addSecs due (7 * 86400))
      else if rule = txt "monthly" then some (addMonths due 1)
      else if rule = txt "yearly" then some (addMonths due 12)
      else if (txt "every ").isPrefixOf rule then
        match pySplitWS rule with
        | _ :: p1 :: p2 :: _ =>
          if pyIsdigit p1 then
            let amount : Int := pyToNat p1
            if (txt "week").isPrefixOf p2 then some (addSecs due (amount * (7 * 86400)))
            else if (txt "day").isPrefixOf p2 then some (addSecs due (amount * 86400))
            else none
          else none
        | _ => none
      else none
  | _, _ => none

/-- CPython `datetime.MINYEAR` day number (0001-01-01). -/
def minDayNum : Int := daysFromCivil 1 1 1

/-- CPython `datetime.MAXYEAR` last day number (9999-12-31). -/
def maxDayNum : Int := daysFromCivil 9999 12 31

/-- `datetime + timedelta` with CPython's range check; `none` models the
`OverflowError` raised when the result leaves year range 1..9999. -/
def addSecsChecked (dt : PyDateTime) (delta : Int) : Option PyDateTime :=
  let r := addSecs dt delta
  if minDayNum ≤ r.days ∧ r.days ≤ maxDayNum then some r else none

/-- `_add_months` with CPython's range checks: `_days_in_month` constructs
`datetime(year+1, 1, 1)` or `datetime(year, month+1, 1)` — raising
`ValueError` when that constructor year leaves 1..9999 — and `dt.replace`
validates the target year the same way. -/
def addMonthsChecked (dt : PyDateTime) (months : Int) : Option PyDateTime :=
  let c := civilFromDays dt.days
  let year := c.year + (c.month - 1 + months) / 12
  let month := (c.month - 1 + months) % 12 + 1
  let ctorYear := if month == 12 then year + 1 else year
  if (1 ≤ ctorYear ∧ ctorYear ≤ 9999) ∧ (1 ≤ year ∧ year ≤ 9999) then some (addMonths dt months)
  else none

/-- `next_due_date` over CPython's bounded `datetime`: the outer `none`
models an uncaught `OverflowError`/`ValueError`, `some r` a normal return
of `r`. -/
def next_due_dateChecked (due_at : Option PyDateTime) (repeat_rule : Option Str) :
    Option (Option PyDateTime) :=
  match due_at, repeat_rule with
  | some due, some rr =>
    if rr.isEmpty then some none
    else
      let rule := pyStrip (pyLower rr)
      if rule = txt "daily" then (addSecsChecked due 86400).map some
      else if rule = txt "weekly" then (addSecsChecked due (7 * 86400)).map some
      else if rule = txt "monthly" then (addMonthsChecked due 1).map some
      else if rule = txt "yearly" then (addMonthsChecked due 12).map some
      else if (txt "every ").isPrefixOf rule then
        match pySplitWS rule with
        | _ :: p1 :: p2 :: _ =>
          if pyIsdigit p1 then
            let amount : Int := pyToNat p1
            if (txt "week").isPrefixOf p2 then (addSecsChecked due (amount * (7 * 86400))).map some
            else if (txt "day").isPrefixOf p2 then (addSecsChecked due (amount * 86400)).map some
            else some none
          else some none
        | _ => some none
      else some none
  | _, _ => some none

/-! ## Regex machinery (hand-compiled Python `re` patterns) -/

/-- Case-insensitive literal: consume `lit` from the head of `s` and
return the remainder (`re.IGNORECASE` comparison through `charLower`). -/
def dropLit : Str → Str → Option Str
  | [], s => some s
  | _ :: _, [] => none
  | l :: lit, c :: s => if charLower c == charLower l then dropLit lit s else none

/-- `\s+`, greedy.  Every use site is followed by a non-space construct
(or handled specially in `tailCapture`), so greediness needs no
backtracking. -/
def dropWS1 : Str → Option Str
  | c :: s => if isPySpace c then some (s.dropWhile isPySpace) else none
  | [] => none

/-- `\s*`, greedy (same remark). -/
def dropWS0 (s : Str) : Str := s.dropWhile isPySpace

/-- `\d+`, greedy: the maximal nonempty digit run and the remainder.
What follows it in every pattern here cannot match a digit, so the greedy
reading is exact. -/
def takeDigits1 (s : Str) : Option (Str × Str) :=
  let ds := s.takeWhile Char.isDigit
  if ds.isEmpty then none else some (ds, s.dropWhile Char.isDigit)

/-- `\d{n}`: exactly `n` digits. -/
def takeNDigits : Nat → Str → Option (Str × Str)
  | 0, s => some ([], s)
  | n + 1, c :: s =>
    if c.isDigit then (takeNDigits n s).map (fun dr => (c :: dr.1, dr.2)) else none
  | _ + 1, [] => none

/-- Ordered alternation of literals: the first alternative that matches
wins, as in Python `re`.  Returns the matched input segment and the
remainder. -/
def tryAlts (alts : List Str) (s : Str) : Option (Str × Str) :=
  match alts with
  | [] => none
  | a :: rest =>
    match dropLit a s with
    | some r => some (s.take a.length, r)
    | none => tryAlts rest s

/-- Word-character status of the character before the current position
(string start counts as non-word), for `\b`. -/
def isWordOpt : Option Char → Bool
  | none => false
  | some c => isWordChar c

/-- Trailing `\b`: the next character must not be a word character. -/
def boundaryAfter : Str → Bool
  | [] => true
  | c :: _ => !isWordChar c

/-- Ordered alternation of whole words wrapped in `\b...\b`.  An
alternative that matches but fails the trailing boundary is abandoned and
the next one tried, as `re` backtracking does. -/
def tryWordAltsAux (alts : List Str) (s : Str) : Option (Str × Str) :=
  match alts with
  | [] => none
  | a :: rest =>
    match dropLit a s with
    | some r => if boundaryAfter r then some (s.take a.length, r) else tryWordAltsAux rest s
    | none => tryWordAltsAux rest s

/-- `\b(w1|w2|…)\b` at one position. -/
def tryWordAlts (alts : List Str) (prev : Option Char) (s : Str) : Option (Str × Str) :=
  if isWordOpt prev then none else tryWordAltsAux alts s

/-- `re.search`: try the pattern at every position, leftmost match wins. -/
def searchG (p : Str → Option α) : Str → Option α
  | [] => p []
  | s@(_ :: rest) => (p s).orElse fun _ => searchG p rest

/-- `re.search` for patterns with a leading `\b`: also feeds the previous
character. -/
def searchBAux (p : Option Char → Str → Option α) : Option Char → Str → Option α
  | prev, [] => p prev []
  | prev, s@(c :: rest) => (p prev s).orElse fun _ => searchBAux p (some c) rest

/-- Boundary-aware `re.search` starting at string begin. -/
def searchB (p : Option Char → Str → Option α) (s : Str) : Option α := searchBAux p none s

/-- `re.findall`: scan left to right recording non-overlapping matches;
`p` returns payload plus the remainder after the match.  (Patterns used
with it always consume at least one character.)  The first argument is
recursion fuel, kept structural so the kernel can evaluate it. -/
def findallGo (p : Str → Option (α × Str)) : Nat → Str → List α
  | 0, _ => []
  | _ + 1, [] => []
  | fuel + 1, c :: rest =>
    match p (c :: rest) with
    | some (a, rem) =>
      if rem.length < (c :: rest).length then a :: findallGo p fuel rem
      else findallGo p fuel rest
    | none => findallGo p fuel rest

/-- `re.findall` (see `findallGo`); the fuel `s.length` always suffices
because every step consumes at least one character. -/
def findallG (p : Str → Option (α × Str)) (s : Str) : List α := findallGo p s.length s

/-- `re.sub(pattern, "", text)`: delete every non-overlapping match, left
to right; `p` returns the remainder after a match at the current position.
(None of the substituted patterns of this code uses `\b`, so no previous
character is tracked.)  The first argument is recursion fuel, kept
structural so the kernel can evaluate it. -/
def subAllGo (p : Str → Option Str) : Nat → Str → Str
  | 0, s => s
  | _ + 1, [] => []
  | fuel + 1, c :: rest =>
    match p (c :: rest) with
    | some rem =>
      if rem.length < (c :: rest).length then subAllGo p fuel rem
      else c :: subAllGo p fuel rest
    | none => c :: subAllGo p fuel rest

/-- `re.sub(pattern, "", text)` (see `subAllGo`); the fuel `s.length`
always suffices because every step consumes at least one character. -/
def subAll (p : Str → Option Str) (s : Str) : Str := subAllGo p s.length s

/-! ## `src/parser.py`: the compiled patterns -/

/-- Unit group of `_RE_REMIND_OFFSET`/`_RE_DURATION_PART`, in pattern
order (`минут|мин|час|часа|часов|день|дня|дней|неделю|недели|недель`;
ordered alternation makes e.g. `часов` match only as its prefix `час`). -/
def durationUnits : List Str :=
  [txt "минут", txt "мин", txt "час", txt "часа", txt "часов",
   txt "день", txt "дня", txt "дней", txt "неделю", txt "недели", txt "недель"]

/-- `напомни(?:ть)?\s+<kw>`: common prefix of the three reminder
patterns.  Consuming the optional `ть` greedily is exact: the alternative
reading would need `т` to be whitespace. -/
def dropRemindKw (kw : Str) (s : Str) : Option Str := do
  let s1 ← dropLit (txt "напомни") s
  let s2 := (dropLit (txt "ть") s1).getD s1
  let s3 ← dropWS1 s2
  dropLit kw s3

/-- `_RE_REMIND_OFFSET` at one position:
`напомни(?:ть)?\s+за\s+(\d+)\s*(минут|…|недель)`; yields
((group 1, group 2), remainder after the whole match). -/
def tryRemindOffset (s : Str) : Option ((Str × Str) × Str) := do
  let s4 ← dropRemindKw (txt "за") s
  let s5 ← dropWS1 s4
  let (ds, s6) ← takeDigits1 s5
  let (u, s8) ← tryAlts durationUnits (dropWS0 s6)
  pure ((ds, u), s8)

/-- `\s+(.+)$` tail capture of the `напомни в`/`напомни через` patterns.
When everything after the whitespace run is empty, greedy `\s+` gives one
character back to `.+` if it can (Python backtracking); the texts treated
here never hit that corner. -/
def tailCapture : Str → Option Str
  | [] => none
  | c :: rest =>
    if isPySpace c then
      let tl := rest.dropWhile isPySpace
      if tl.isEmpty then
        match rest.getLast? with
        | none => none
        | some lc => some [lc]
      else some tl
    else none

/-- `_RE_REMIND_IN` at one position: `напомни(?:ть)?\s+через\s+(.+)$`;
yields group 1 (the match itself always runs to the end of the string). -/
def tryRemindIn (s : Str) : Option Str :=
  (dropRemindKw (txt "через") s).bind tailCapture

/-- `_RE_REMIND_AT` at one position: `напомни(?:ть)?\s+в\s+(.+)$`. -/
def tryRemindAt (s : Str) : Option Str :=
  (dropRemindKw (txt "в") s).bind tailCapture

/-- `_RE_DURATION_PART` at one position: `(\d+)\s*(минут|…|недель)`. -/
def tryDurationPart (s : Str) : Option ((Str × Str) × Str) := do
  let (ds, r1) ← takeDigits1 s
  let (u, r2) ← tryAlts durationUnits (dropWS0 r1)
  pure ((ds, u), r2)

/-- `[.:]`. -/
def trySep : Str → Option Str
  | c :: rest => if c == '.' || c == ':' then some rest else none
  | [] => none

/-- `_RE_TIME_TOKEN` at one position: `\b\d{1,2}([.:]\d{2})?\b`, with
`re` backtracking order (two digits before one, optional group present
before absent, trailing `\b` checked each time).  Returns the matched
segment. -/
def tryTimeToken (prev : Option Char) (s : Str) : Option Str :=
  if isWordOpt prev then none
  else
    (do let (_, r1) ← takeNDigits 2 s
        let r2 ← trySep r1
        let (_, r3) ← takeNDigits 2 r2
        guard (boundaryAfter r3)
        pure (s.take 5)) <|>
    (do let (_, r1) ← takeNDigits 2 s
        guard (boundaryAfter r1)
        pure (s.take 2)) <|>
    (do let (_, r1) ← takeNDigits 1 s
        let r2 ← trySep r1
        let (_, r3) ← takeNDigits 2 r2
        guard (boundaryAfter r3)
        pure (s.take 4)) <|>
    (do let (_, r1) ← takeNDigits 1 s
        guard (boundaryAfter r1)
        pure (s.take 1))

/-- The words of `_RE_DATE_WORD`, in pattern order. -/
def dateWords : List Str :=
  [txt "сегодня", txt "завтра", txt "послезавтра", txt "понедельник",
   txt "вторник", txt "среда", txt "четверг", txt "пятница",
   txt "суббота", txt "воскресенье"]

/-- The day-part words `утра|днем|вечером|ночью`. -/
def dayPartWords : List Str := [txt "утра", txt "днем", txt "вечером", txt "ночью"]

/-- `_RE_DATE_WORD.search(text)`, group 0. -/
def searchDateWord (s : Str) : Option Str :=
  (searchB (fun prev t => tryWordAlts dateWords prev t) s).map Prod.fst

/-- `re.search(r"\b(утра|днем|вечером|ночью)\b", text)`, group 0. -/
def searchDayPart (s : Str) : Option Str :=
  (searchB (fun prev t => tryWordAlts dayPartWords prev t) s).map Prod.fst

/-- `_RE_TIME_TOKEN.search(text)`, group 0. -/
def searchTimeToken (s : Str) : Option Str := searchB tryTimeToken s

/-- `_RE_DATE_HINT.search(text)` as a presence test; the hint pattern's
alternatives are exactly the time tokens (with the bare 1–2 digit number)
plus the date words plus the day-part words. -/
def dateHintFound (s : Str) : Bool :=
  (searchTimeToken s).isSome || (searchDateWord s).isSome || (searchDayPart s).isSome

/-- `_RE_REPEAT_DAILY` alternatives (the space in `каждый день` is a
literal space in the pattern). -/
def repeatDailyAlts : List Str := [txt "каждый день", txt "ежедневно"]

/-- `_RE_REPEAT_WEEKLY` alternatives. -/
def repeatWeeklyAlts : List Str := [txt "каждую неделю", txt "еженедельно"]

/-- `_RE_REPEAT_MONTHLY` alternatives. -/
def repeatMonthlyAlts : List Str := [txt "каждый месяц", txt "ежемесячно"]

/-- `_RE_REPEAT_YEARLY` alternatives. -/
def repeatYearlyAlts : List Str := [txt "каждый год", txt "ежегодно"]

/-- `pattern.search(text) is not None` for a literal alternation. -/
def foundAlts (alts : List Str) (s : Str) : Bool :=
  (searchG (tryAlts alts) s).isSome

/-- Unit group of `_RE_REPEAT_EVERY` (`день|дня|дней|неделю|недели|недель`). -/
def everyUnits : List Str :=
  [txt "день", txt "дня", txt "дней", txt "неделю", txt "недели", txt "недель"]

/-- `_RE_REPEAT_EVERY` at one position:
`каждые?\s+(\d+)\s*(день|…|недель)`.  Greedily consuming the optional
`е` is exact: the alternative reading would need `е` to be whitespace. -/
def tryRepeatEvery (s : Str) : Option ((Str × Str) × Str) := do
  let s1 ← dropLit (txt "кажды") s
  let s2 := (dropLit (txt "е") s1).getD s1
  let s3 ← dropWS1 s2
  let (ds, s4) ← takeDigits1 s3
  let (u, s6) ← tryAlts everyUnits (dropWS0 s4)
  pure ((ds, u), s6)

/-! ## `src/parser.py`: the extraction pipeline -/

/-- The `ParsedTask` dataclass. -/
structure ParsedTask where
  title : Str
  description : Option Str
  due_at : Option PyDateTime
  remind_at : Option PyDateTime
  repeat_rule : Option Str
  deriving Repr, DecidableEq

/-- The external `dateparser` backend as an oracle, under the fixed call
settings (`RELATIVE_BASE = now`, the configured timezone, prefer-future):
`parse(phrase, …)` and `search_dates(text, …)`. -/
structure DPOracle where
  parse : Str → Option PyDateTime
  searchDates : Str → List (Str × PyDateTime)

/-- `_to_delta(amount, unit)` as a timedelta in seconds: prefix-matched
unit with days as the default. -/
def toDelta (amount : Int) (unit : Str) : Int :=
  if (txt "мин").isPrefixOf unit then amount * 60
  else if (txt "час").isPrefixOf unit then amount * 3600
  else if (txt "нед").isPrefixOf unit then amount * 604800
  else amount * 86400

/-- The time test applied to `search_dates` matched text:
`\d{1,2}[.:]\d{2}|\b(утра|днем|вечером|ночью)\b` (the numeric
alternative carries no word boundaries). -/
def tryBareTime (s : Str) : Option Unit :=
  (do let (_, r1) ← takeNDigits 2 s
      let r2 ← trySep r1
      let (_, _) ← takeNDigits 2 r2
      pure ()) <|>
  (do let (_, r1) ← takeNDigits 1 s
      let r2 ← trySep r1
      let (_, _) ← takeNDigits 2 r2
      pure ())

/-- `has_time` of `_extract_due_date`. -/
def hasTimeMark (s : Str) : Bool :=
  (searchG tryBareTime s).isSome || (searchDayPart s).isSome

/-- Sort key of `_extract_due_date`'s candidate ranking:
`(not has_time, dt)` with Python tuple order. -/
def candKey (c : Bool × PyDateTime) : Bool × Int := (!c.1, toSecs c.2)

/-- Strict order on the sort keys (`False < True` on booleans). -/
def keyLt (a b : Bool × Int) : Bool :=
  (!a.1 && b.1) || (a.1 == b.1 && decide (a.2 < b.2))

/-- Head of the candidate list after Python's stable ascending sort: the
first element attaining the minimal key. -/
def selectBest (c0 : Bool × PyDateTime) (cs : List (Bool × PyDateTime)) : PyDateTime :=
  (cs.foldl (fun best c => if keyLt (candKey c) (candKey best) then c else best) c0).2

/-- `_extract_date_with_time(text, now, settings)`.  The final
`date_part.replace(hour=…, minute=…, second=0, microsecond=0)` keeps the
resolved date's day and splices in the resolved time (its `ValueError`
guard cannot fire for valid hour/minute values). -/
def extract_date_with_time (dp : DPOracle) (text : Str) : Option PyDateTime :=
  if !dateHintFound text then none
  else
    match searchDateWord text with
    | none => none
    | some dateWord =>
      let timeTok := searchTimeToken text
      let dayPart := searchDayPart text
      if timeTok.isNone && dayPart.isNone then none
      else
        match dp.parse dateWord with
        | none => none
        | some datePart =>
          let timeText := timeTok.getD (txt "00:00") ++
            (match dayPart with | some w => ' ' :: w | none => [])
          match dp.parse timeText with
          | none => none
          | some timePart =>
            some ⟨datePart.days, hourOf timePart * 3600 + minuteOf timePart * 60⟩

/-- `_extract_due_date(text, now, settings)`: combined assembly first,
otherwise the full-text `search_dates` scan filtered to future candidates
and ranked time-bearing-first, then chronologically. -/
def extract_due_date (dp : DPOracle) (text : Str) (now : PyDateTime) : Option PyDateTime :=
  match extract_date_with_time dp text with
  | some combined => some combined
  | none =>
    let cands := (dp.searchDates text).filterMap fun md =>
      if toSecs md.2 ≤ toSecs now then none
      else some (hasTimeMark md.1, md.2)
    match cands with
    | [] => none
    | c0 :: cs => some (selectBest c0 cs)

/-- The accumulated duration sum of the `напомни через` branch of
`_extract_remind_at`: every `(\d+)\s*(unit)` pair found in the captured
tail contributes `_to_delta(int(amount), unit.lower())`. -/
def remindInDelta (tail : Str) : Int :=
  (findallG tryDurationPart tail).foldl
    (fun acc du => acc + toDelta (pyToNat du.1) (pyLower du.2)) 0

/-- `_extract_remind_at(text, now, settings, due_at)`: the source tries
`напомни через` first, then `напомни за` (only effective with a due
time), then `напомни в`. -/
def extract_remind_at (dp : DPOracle) (text : Str) (now : PyDateTime)
    (due_at : Option PyDateTime) : Option PyDateTime :=
  match searchG tryRemindIn text with
  | some tail =>
    let delta := remindInDelta tail
    if delta = 0 then none
    else
      let remind := addSecs now delta
      if toSecs now < toSecs remind then some remind else none
  | none =>
    match searchG (fun s => (tryRemindOffset s).map Prod.fst) text, due_at with
    | some (ds, u), some due =>
      let delta := toDelta (pyToNat ds) (pyLower u)
      let remind := addSecs due (-delta)
      if toSecs now < toSecs remind then some remind else none
    | _, _ =>
      match searchG tryRemindAt text with
      | some tail =>
        match dp.parse tail with
        | some parsed => if toSecs now < toSecs parsed then some parsed else none
        | none => none
      | none => none

/-- `_extract_repeat_rule(text)`: fixed cycles first, then the parametric
`every N` form (`int()` normalizes the captured digits, e.g. dropping
leading zeros). -/
def extract_repeat_rule (text : Str) : Option Str :=
  if foundAlts repeatDailyAlts text then some (txt "daily")
  else if foundAlts repeatWeeklyAlts text then some (txt "weekly")
  else if foundAlts repeatMonthlyAlts text then some (txt "monthly")
  else if foundAlts repeatYearlyAlts text then some (txt "yearly")
  else
    match searchG (fun s => (tryRepeatEvery s).map Prod.fst) text with
    | some (ds, u) =>
      let amount := pyToNat ds
      if (txt "нед").isPrefixOf (pyLower u) then
        some (txt "every " ++ natStr amount ++ txt " weeks")
      else some (txt "every " ++ natStr amount ++ txt " days")
    | none => none

/-- `re.sub(r"\s+", " ", text)`. -/
def collapseWSAux : Bool → Str → Str
  | _, [] => []
  | inWS, c :: rest =>
    if isPySpace c then
      if inWS then collapseWSAux true rest else ' ' :: collapseWSAux true rest
    else c :: collapseWSAux false rest

/-- Whitespace-run collapsing (helper of `_cleanup_title`). -/
def collapseWS (s : Str) : Str := collapseWSAux false s

/-- `_cleanup_title(text)`: collapse whitespace, delete every reminder and
recurrence phrase, collapse and strip again, placeholder if empty. -/
def cleanup_title (text : Str) : Str :=
  let t := pyStrip (collapseWS text)
  let t := subAll (fun s => (tryRemindOffset s).map Prod.snd) t
  let t := subAll (fun s => (tryRemindAt s).map fun _ => ([] : Str)) t
  let t := subAll (fun s => (tryRemindIn s).map fun _ => ([] : Str)) t
  let t := subAll (fun s => (tryAlts repeatDailyAlts s).map Prod.snd) t
  let t := subAll (fun s => (tryAlts repeatWeeklyAlts s).map Prod.snd) t
  let t := subAll (fun s => (tryAlts repeatMonthlyAlts s).map Prod.snd) t
  let t := subAll (fun s => (tryAlts repeatYearlyAlts s).map Prod.snd) t
  let t := subAll (fun s => (tryRepeatEvery s).map Prod.snd) t
  let r := pyStrip (collapseWS t)
  if r.isEmpty then txt "Без названия" else r

/-- Python `"напомни" in text.lower()`. -/
def containsNapomni (text : Str) : Bool :=
  (searchG (dropLit (txt "напомни")) text).isSome

/-- `_parse_fallback(text, now, settings)`. -/
def parse_fallback (dp : DPOracle) (text : Str) (now : PyDateTime) : ParsedTask :=
  let due0 := extract_due_date dp text now
  let remind0 := extract_remind_at dp text now due0
  let due1 := if remind0.isSome && due0.isNone then remind0 else due0
  let remind1 :=
    if remind0.isNone && due1.isSome && containsNapomni text then due1 else remind0
  { title := cleanup_title text
    description := none
    due_at := due1
    remind_at := remind1
    repeat_rule := extract_repeat_rule text }

/-! ## `src/parser.py`: the LLM adapter's validation stage -/

/-- One decimal digit value. -/
def digitVal (c : Char) : Option Nat := if c.isDigit then some (c.toNat - 48) else none

/-- Two decimal digits. -/
def read2 : Str → Option (Nat × Str)
  | a :: b :: r => do pure ((← digitVal a) * 10 + (← digitVal b), r)
  | _ => none

/-- Four decimal digits. -/
def read4 (s : Str) : Option (Nat × Str) := do
  let (hi, r) ← read2 s
  let (lo, r2) ← read2 r
  pure (hi * 100 + lo, r2)

/-- A literal dash. -/
def dropDash : Str → Option Str
  | c :: r => if c == '-' then some r else none
  | [] => none

/-- Restricted model of `datetime.fromisoformat`, covering the
`YYYY-MM-DD[<sep>HH:MM[:SS]]` shapes this development evaluates it on;
field range validation as in Python, anything else rejected. -/
def fromisoformat (s : Str) : Option PyDateTime := do
  let (y, r1) ← read4 s
  let r2 ← dropDash r1
  let (mo, r3) ← read2 r2
  let r4 ← dropDash r3
  let (d, r5) ← read2 r4
  let hms ← match r5 with
    | [] => some (0, 0, 0)
    | _sep :: rest => do
      let (h, t1) ← read2 rest
      match t1 with
      | ':' :: t2 => do
        let (mi, t3) ← read2 t2
        match t3 with
        | [] => pure (h, mi, 0)
        | ':' :: t4 => do
          let (sec, t5) ← read2 t4
          if t5.isEmpty then pure (h, mi, sec) else none
        | _ => none
      | _ => none
  match hms with
  | (h, mi, sec) =>
    if 1 ≤ y ∧ y ≤ 9999 ∧ 1 ≤ mo ∧ mo ≤ 12 ∧ 1 ≤ d ∧ (d : Int) ≤ daysInMonthPy y mo
        ∧ h ≤ 23 ∧ mi ≤ 59 ∧ sec ≤ 59 then
      some ⟨daysFromCivil y mo d, (h : Int) * 3600 + (mi : Int) * 60 + (sec : Int)⟩
    else none

/-- `_parse_dt(value)`: absent/empty gives absent, a string is ISO-parsed
with failure mapped to absent. -/
def parse_dt (v : Option Str) : Option PyDateTime :=
  match v with
  | none => none
  | some s => if s.isEmpty then none else fromisoformat s

/-- `_nullify(value)`. -/
def nullify (v : Option Str) : Option Str :=
  match v with
  | none => none
  | some s =>
    if s.isEmpty then none
    else
      let t := pyStrip s
      if t.isEmpty then none else some t

/-- `_normalize_repeat(value)`: strip and lowercase, drop `none`/`null`
and empties, pass any other string through. -/
def normalize_repeat (v : Option Str) : Option Str :=
  match v with
  | none => none
  | some s =>
    if s.isEmpty then none
    else
      let s' := pyLower (pyStrip s)
      if s' = txt "none" ∨ s' = txt "null" then none else some s'

/-- The JSON object returned by the Perplexity call, fields as
string-or-null (the shapes the prompt requests). -/
structure LlmData where
  title : Option Str
  description : Option Str
  due_at : Option Str
  remind_at : Option Str
  repeat_rule : Option Str
  deriving Repr, DecidableEq

/-- The `ParsedTask` construction of `_parse_with_perplexity` from parsed
JSON (`str(data.get("title") or text)` falls back to the raw text on a
missing or empty title). -/
def perplexityBuild (data : LlmData) (text : Str) : ParsedTask :=
  { title := match data.title with
      | some t => if t.isEmpty then text else t
      | none => text
    description := nullify data.description
    due_at := parse_dt data.due_at
    remind_at := parse_dt data.remind_at
    repeat_rule := normalize_repeat data.repeat_rule }

/-- `_parse_with_perplexity(text, now, settings)`: the network/JSON stage
is the oracle value (`none` models request failure or an unusable answer),
the validation stage is `perplexityBuild`. -/
def parse_with_perplexity (llm : Option LlmData) (text : Str) : Option ParsedTask :=
  llm.map fun data => perplexityBuild data text

/-- `parse_task_text(text, now, settings)`: the entry point; LLM first
when an API key is configured, deterministic fallback otherwise. -/
def parse_task_text (apiKeySet : Bool) (llm : Option LlmData) (dp : DPOracle)
    (text : Str) (now : PyDateTime) : ParsedTask :=
  let text := pyStrip text
  if apiKeySet then
    match parse_with_perplexity llm text with
    | some parsed => parsed
    | none => parse_fallback dp text now
  else parse_fallback dp text now

/-! ## `src/bot.py`: task completion (`_complete_task`) -/

/-- Scheduling-relevant fields of a stored `Task`. -/
structure TaskSched where
  due_at : Option PyDateTime
  remind_at : Option PyDateTime
  repeat_rule : Option Str
  deriving Repr, DecidableEq

/-- Outcome of `_complete_task`: rescheduled (the new due and reminder
written back, status reset to open) or simply marked done. -/
inductive CompleteOutcome where
  | rescheduled (newDue : PyDateTime) (newRemind : Option PyDateTime)
  | markedDone
  deriving Repr, DecidableEq

/-- Python truthiness of an optional string. -/
def truthyOptStr : Option Str → Bool
  | none => false
  | some s => !s.isEmpty

/-- `_complete_task(task, context, settings, db_path)`: the date logic,
with the storage and job-queue side effects abstracted into the outcome. -/
def complete_task (t : TaskSched) (now : PyDateTime) : CompleteOutcome :=
  match next_due_date t.due_at t.repeat_rule with
  | some nd =>
    if truthyOptStr t.repeat_rule then
      let newRemind :=
        match t.remind_at, t.due_at with
        | some r, some d =>
          if toSecs r < toSecs d then
            let offset := toSecs d - toSecs r
            let candidate := addSecs nd (-offset)
            if toSecs now < toSecs candidate then some candidate else none
          else none
        | _, _ => none
      CompleteOutcome.rescheduled nd newRemind
    else CompleteOutcome.markedDone
  | none => CompleteOutcome.markedDone

/-! ## Helper lemmas: Python string primitives -/

/-- The lowercase alphabet targeted by `charLower`. -/
def lcChars : Str := txt "abcdefghijklmnopqrstuvwxyzабвгдежзийклмнопрстуфхцчшщъыьэюяё"

theorem charLower_cases (c : Char) : charLower c = c ∨ charLower c ∈ lcChars := by
  unfold charLower
  split
  all_goals first | (right; decide) | (left; rfl)

theorem charLower_mem_lc : ∀ d ∈ lcChars, charLower d = d := by decide

theorem charLower_idem (c : Char) : charLower (charLower c) = charLower c := by
  rcases charLower_cases c with h | h
  · rw [h]; exact h
  · exact charLower_mem_lc _ h

theorem isPySpace_charLower (c : Char) : isPySpace (charLower c) = isPySpace c := by
  unfold charLower
  split
  all_goals rfl

theorem pyLower_idem (s : Str) : pyLower (pyLower s) = pyLower s := by
  unfold pyLower
  rw [List.map_map]
  exact List.map_congr_left fun c _ => charLower_idem c

/-- Right-hand strip, as the composition inside `pyStrip`. -/
def rstrip (s : Str) : Str := (s.reverse.dropWhile isPySpace).reverse

theorem pyStrip_eq_rstrip (s : Str) : pyStrip s = rstrip (s.dropWhile isPySpace) := rfl

theorem dropWhile_idem (p : Char → Bool) (l : Str) :
    (l.dropWhile p).dropWhile p = l.dropWhile p := by
  induction l with
  | nil => rfl
  | cons c t ih =>
    by_cases h : p c
    · simp [List.dropWhile_cons, h, ih]
    · simp [List.dropWhile_cons, h]

theorem rstrip_idem (l : Str) : rstrip (rstrip l) = rstrip l := by
  unfold rstrip
  rw [List.reverse_reverse, dropWhile_idem]

theorem rstrip_cons_of_empty (c : Char) (t : Str)
    (hD : (t.reverse.dropWhile isPySpace).isEmpty) :
    rstrip (c :: t) = if isPySpace c then [] else [c] := by
  unfold rstrip
  simp [List.dropWhile_append, hD, List.dropWhile_cons]
  split <;> simp_all

theorem rstrip_cons_of_nonempty (c : Char) (t : Str)
    (hD : ¬ (t.reverse.dropWhile isPySpace).isEmpty) :
    rstrip (c :: t) = c :: rstrip t := by
  unfold rstrip
  simp only [List.reverse_cons, List.dropWhile_append, hD, if_false]
  simp

theorem dropWhile_rstrip (l : Str) :
    (rstrip l).dropWhile isPySpace = rstrip (l.dropWhile isPySpace) := by
  induction l with
  | nil => rfl
  | cons c t ih =>
    by_cases hD : (t.reverse.dropWhile isPySpace).isEmpty
    · have hall : ∀ a ∈ t, isPySpace a = true := by
        intro a ha
        have := List.dropWhile_eq_nil_iff.mp (List.isEmpty_iff.mp hD)
        exact this a (List.mem_reverse.mpr ha)
      have ht : t.dropWhile isPySpace = [] := List.dropWhile_eq_nil_iff.mpr hall
      rw [rstrip_cons_of_empty c t hD]
      by_cases h : isPySpace c
      · simp [h, List.dropWhile_cons, ht, rstrip]
      · simp [h, List.dropWhile_cons, ht, rstrip_cons_of_empty c t hD]
    · rw [rstrip_cons_of_nonempty c t hD]
      by_cases h : isPySpace c
      · simp [List.dropWhile_cons, h, ih]
      · simp [List.dropWhile_cons, h, rstrip_cons_of_nonempty c t hD]

theorem pyStrip_idem (s : Str) : pyStrip (pyStrip s) = pyStrip s := by
  rw [pyStrip_eq_rstrip, pyStrip_eq_rstrip, dropWhile_rstrip, dropWhile_idem, rstrip_idem]

theorem pyLower_pyStrip (s : Str) : pyLower (pyStrip s) = pyStrip (pyLower s) := by
  unfold pyStrip pyLower
  have hpf : (isPySpace ∘ charLower) = isPySpace := funext isPySpace_charLower
  rw [List.dropWhile_map, hpf, ← List.map_reverse, List.dropWhile_map, hpf, ← List.map_reverse]

/-- Lowercasing and stripping a rule string is idempotent: the
normalization inside `next_due_date` absorbs itself. -/
theorem normRule_idem (r : Str) :
    pyStrip (pyLower (pyStrip (pyLower r))) = pyStrip (pyLower r) := by
  rw [pyLower_pyStrip, pyLower_idem, pyStrip_idem]

/-! ## Helper lemmas: decimal rendering -/

def pow10Len (n : Nat) : Nat :=
  if n < 10 then 10 else 10 * pow10Len (n / 10)
termination_by n
decreasing_by omega

theorem digitChar10_isDigit (d : Nat) : (digitChar10 d).isDigit = true := by
  unfold digitChar10
  split <;> rfl

theorem digitChar10_val (d : Nat) (h : d < 10) : (digitChar10 d).toNat - 48 = d := by
  interval_cases d <;> rfl

theorem natStrAux_foldl (step : Nat → Char → Nat)
    (hstep : ∀ a c, step a c = 10 * a + (c.toNat - 48)) :
    ∀ fuel n acc a, n < fuel →
      (natStrAux fuel n acc).foldl step a = acc.foldl step (a * pow10Len n + n) := by
  intro fuel
  induction fuel with
  | zero => intro n acc a h; omega
  | succ f ih =>
    intro n acc a hnf
    by_cases h : n / 10 = 0
    · have hn : n < 10 := by omega
      rw [natStrAux, show pow10Len n = 10 from by rw [pow10Len, if_pos hn]]
      simp only [h, if_true, List.foldl_cons, hstep]
      rw [digitChar10_val (n % 10) (by omega)]
      congr 1
      omega
    · rw [natStrAux]
      simp only [h, if_false]
      rw [ih (n / 10) _ _ (by omega),
        show pow10Len n = 10 * pow10Len (n / 10) from by rw [pow10Len, if_neg (by omega)]]
      simp only [List.foldl_cons, hstep]
      rw [digitChar10_val (n % 10) (by omega)]
      congr 1
      have hr : a * (10 * pow10Len (n / 10)) = 10 * (a * pow10Len (n / 10)) := by ring
      rw [hr]
      generalize a * pow10Len (n / 10) = k
      omega

theorem pyToNat_natStr (n : Nat) : pyToNat (natStr n) = n := by
  unfold pyToNat natStr
  rw [natStrAux_foldl (fun a c => 10 * a + (c.toNat - 48)) (fun _ _ => rfl) _ _ _ _ (by omega)]
  simp

theorem digitChar10_props (d : Nat) :
    (digitChar10 d).isDigit = true ∧ isPySpace (digitChar10 d) = false ∧
      charLower (digitChar10 d) = digitChar10 d := by
  unfold digitChar10
  split <;> exact ⟨rfl, rfl, rfl⟩

theorem natStrAux_mem (fuel : Nat) :
    ∀ n acc, (∀ c ∈ acc, c.isDigit = true ∧ isPySpace c = false ∧ charLower c = c) →
      ∀ c ∈ natStrAux fuel n acc, c.isDigit = true ∧ isPySpace c = false ∧ charLower c = c := by
  induction fuel with
  | zero => intro n acc hacc c hc; exact hacc c hc
  | succ f ih =>
    intro n acc hacc c hc
    rw [natStrAux] at hc
    split at hc
    · rcases List.mem_cons.mp hc with hceq | hmem
      · rw [hceq]; exact digitChar10_props _
      · exact hacc _ hmem
    · refine ih (n / 10) _ ?_ c hc
      intro d hd
      rcases List.mem_cons.mp hd with hdeq | hmem
      · rw [hdeq]; exact digitChar10_props _
      · exact hacc _ hmem

theorem natStrAux_ne_nil : ∀ fuel n acc, n < fuel → natStrAux fuel n acc ≠ [] := by
  intro fuel
  induction fuel with
  | zero => intro n acc h; omega
  | succ f ih =>
    intro n acc hnf
    rw [natStrAux]
    split
    · simp
    · exact ih (n / 10) _ (by omega)

theorem natStr_ne_nil (n : Nat) : natStr n ≠ [] := natStrAux_ne_nil (n + 1) n [] (by omega)

/-! ## Helper lemmas: splitting and normalizing canonical rule strings -/

theorem natStr_props (n : Nat) :
    ∀ c ∈ natStr n, c.isDigit = true ∧ isPySpace c = false ∧ charLower c = c :=
  natStrAux_mem (n + 1) n [] (by intro c hc; cases hc)

theorem map_id_of_fix {f : Char → Char} : ∀ l : Str, (∀ c ∈ l, f c = c) → l.map f = l := by
  intro l h
  induction l with
  | nil => rfl
  | cons c t ih =>
    simp only [List.map_cons]
    rw [h c (List.mem_cons_self c t), ih fun d hd => h d (List.mem_cons_of_mem c hd)]

theorem splitWSAux_nonspace :
    ∀ (l s acc : Str), (∀ c ∈ l, isPySpace c = false) →
      splitWSAux (l ++ s) acc = splitWSAux s (l.reverse ++ acc) := by
  intro l
  induction l with
  | nil => intro s acc _; rfl
  | cons c t ih =>
    intro s acc h
    have hc : isPySpace c = false := h c (List.mem_cons_self c t)
    simp only [List.cons_append, splitWSAux, hc, Bool.false_eq_true, if_false]
    rw [List.append_eq]
    rw [ih s (c :: acc) fun d hd => h d (List.mem_cons_of_mem c hd)]
    simp

theorem splitWSAux_space (c : Char) (s acc : Str) (hc : isPySpace c = true) :
    splitWSAux (c :: s) acc = (if acc.isEmpty then [] else [acc.reverse]) ++ splitWSAux s [] := by
  simp [splitWSAux, hc]

theorem splitWSAux_all_nonspace (w acc : Str) (hw : w ≠ []) (h : ∀ c ∈ w, isPySpace c = false) :
    splitWSAux w acc = [acc.reverse ++ w] := by
  have hx := splitWSAux_nonspace w [] acc h
  rw [List.append_nil] at hx
  rw [hx]
  have hne : (w.reverse ++ acc).isEmpty = false := by
    cases hrev : w.reverse with
    | nil => exact absurd (List.reverse_eq_nil_iff.mp hrev) hw
    | cons a b => rfl
  simp [splitWSAux, hne]

theorem pySplitWS_every (ds w : Str) (hds : ds ≠ []) (hdsn : ∀ c ∈ ds, isPySpace c = false)
    (hw : w ≠ []) (hwn : ∀ c ∈ w, isPySpace c = false) :
    pySplitWS (txt "every " ++ ds ++ (' ' :: w)) = [txt "every", ds, w] := by
  unfold pySplitWS
  have he : txt "every " ++ ds ++ (' ' :: w) = txt "every" ++ (' ' :: (ds ++ (' ' :: w))) := by
    simp [txt]
  rw [he, splitWSAux_nonspace (txt "every") _ [] (by decide)]
  rw [show (txt "every").reverse ++ [] = (txt "every").reverse from List.append_nil _]
  rw [splitWSAux_space ' ' _ _ (by decide)]
  rw [splitWSAux_nonspace ds _ [] hdsn]
  rw [List.append_nil]
  rw [splitWSAux_space ' ' _ _ (by decide)]
  have hne : (ds.reverse).isEmpty = false := by
    cases hrev : ds.reverse with
    | nil => exact absurd (List.reverse_eq_nil_iff.mp hrev) hds
    | cons a b => rfl
  rw [splitWSAux_all_nonspace w [] hw hwn]
  simp [hne]
  rw [if_neg (show ¬(txt "every" = []) from by decide)]
  rfl

theorem pyLower_every (ds w : Str) (hds : ∀ c ∈ ds, charLower c = c)
    (hw : ∀ c ∈ w, charLower c = c) :
    pyLower (txt "every " ++ ds ++ (' ' :: w)) = txt "every " ++ ds ++ (' ' :: w) := by
  unfold pyLower
  rw [List.map_append, List.map_append, map_id_of_fix ds hds]
  rw [show List.map charLower (txt "every ") = txt "every " from by decide]
  simp only [List.map_cons]
  rw [map_id_of_fix w hw]
  rfl

theorem dropWhile_cons_neg_general (p : Char → Bool) (c : Char) (t : Str) (h : p c = false) :
    (c :: t).dropWhile p = c :: t := by
  simp [List.dropWhile_cons, h]

theorem pyStrip_every (ds w : Str) (hw : w ≠ []) (hwn : ∀ c ∈ w, isPySpace c = false) :
    pyStrip (txt "every " ++ ds ++ (' ' :: w)) = txt "every " ++ ds ++ (' ' :: w) := by
  unfold pyStrip
  have h1 : (txt "every " ++ ds ++ (' ' :: w)).dropWhile isPySpace
      = txt "every " ++ ds ++ (' ' :: w) := by
    rw [show txt "every " ++ ds ++ (' ' :: w) = 'e' :: (txt "very " ++ ds ++ (' ' :: w)) from rfl]
    exact dropWhile_cons_neg_general _ _ _ (by decide)
  rw [h1]
  obtain ⟨a, t, hat⟩ : ∃ a t, w.reverse = a :: t := by
    cases hrev : w.reverse with
    | nil => exact absurd (List.reverse_eq_nil_iff.mp hrev) hw
    | cons a t => exact ⟨a, t, rfl⟩
  have ha : isPySpace a = false := by
    have : a ∈ w.reverse := by rw [hat]; exact List.mem_cons_self a t
    exact hwn a (List.mem_reverse.mp this)
  have h2 : (txt "every " ++ ds ++ (' ' :: w)).reverse = a :: (t ++ [' '] ++ (txt "every " ++ ds).reverse) := by
    rw [List.reverse_append, List.reverse_cons, hat]
    simp
  rw [h2, dropWhile_cons_neg_general _ _ _ ha, ← h2, List.reverse_reverse]

theorem isPrefixOf_every (ds w : Str) :
    (txt "every ").isPrefixOf (txt "every " ++ ds ++ (' ' :: w)) = true := by
  rw [List.append_assoc]
  exact List.isPrefixOf_iff_prefix.mpr (List.prefix_append _ _)

theorem natStr_nonspace (n : Nat) : ∀ c ∈ natStr n, isPySpace c = false :=
  fun c hc => ((natStr_props n c hc).2).1

theorem natStr_lower_fix (n : Nat) : ∀ c ∈ natStr n, charLower c = c :=
  fun c hc => ((natStr_props n c hc).2).2

theorem pyIsdigit_natStr (n : Nat) : pyIsdigit (natStr n) = true := by
  unfold pyIsdigit
  have h1 : (natStr n).isEmpty = false := by
    cases h : natStr n with
    | nil => exact absurd h (natStr_ne_nil n)
    | cons a b => rfl
  rw [h1]
  simp only [Bool.not_false, Bool.true_and]
  exact List.all_eq_true.mpr fun c hc => (natStr_props n c hc).1

theorem next_due_date_everyN (due : PyDateTime) (N : Nat) :
    next_due_date (some due) (some (txt "every " ++ natStr N ++ txt " days")) =
      some (addSecs due ((N : Int) * 86400)) := by
  have hdays : txt " days" = ' ' :: txt "days" := rfl
  rw [hdays]
  have hl : pyLower (txt "every " ++ natStr N ++ (' ' :: txt "days"))
      = txt "every " ++ natStr N ++ (' ' :: txt "days") :=
    pyLower_every _ _ (natStr_lower_fix N) (by decide)
  have hs : pyStrip (txt "every " ++ natStr N ++ (' ' :: txt "days"))
      = txt "every " ++ natStr N ++ (' ' :: txt "days") :=
    pyStrip_every _ _ (by decide) (by decide)
  have hsplit : pySplitWS (txt "every " ++ natStr N ++ (' ' :: txt "days"))
      = [txt "every", natStr N, txt "days"] :=
    pySplitWS_every _ _ (natStr_ne_nil N) (natStr_nonspace N) (by decide) (by decide)
  have hpre : (txt "every ").isPrefixOf (txt "every " ++ natStr N ++ (' ' :: txt "days")) = true :=
    isPrefixOf_every _ _
  have hd1 : ¬(txt "every " ++ natStr N ++ (' ' :: txt "days") = txt "daily") := by
    intro h
    rw [show txt "every " ++ natStr N ++ (' ' :: txt "days")
        = 'e' :: ((txt "very " ++ natStr N) ++ (' ' :: txt "days")) from rfl] at h
    simp only [txt, List.cons.injEq] at h
    exact absurd h.1 (by decide)
  have hd2 : ¬(txt "every " ++ natStr N ++ (' ' :: txt "days") = txt "weekly") := by
    intro h
    rw [show txt "every " ++ natStr N ++ (' ' :: txt "days")
        = 'e' :: ((txt "very " ++ natStr N) ++ (' ' :: txt "days")) from rfl] at h
    simp only [txt, List.cons.injEq] at h
    exact absurd h.1 (by decide)
  have hd3 : ¬(txt "every " ++ natStr N ++ (' ' :: txt "days") = txt "monthly") := by
    intro h
    rw [show txt "every " ++ natStr N ++ (' ' :: txt "days")
        = 'e' :: ((txt "very " ++ natStr N) ++ (' ' :: txt "days")) from rfl] at h
    simp only [txt, List.cons.injEq] at h
    exact absurd h.1 (by decide)
  have hd4 : ¬(txt "every " ++ natStr N ++ (' ' :: txt "days") = txt "yearly") := by
    intro h
    rw [show txt "every " ++ natStr N ++ (' ' :: txt "days")
        = 'e' :: ((txt "very " ++ natStr N) ++ (' ' :: txt "days")) from rfl] at h
    simp only [txt, List.cons.injEq] at h
    exact absurd h.1 (by decide)
  have hempty : (txt "every " ++ natStr N ++ (' ' :: txt "days")).isEmpty = false := rfl
  simp only [next_due_date]
  rw [hempty]
  simp only [Bool.false_eq_true, if_false, hl, hs]
  rw [if_neg hd1, if_neg hd2, if_neg hd3, if_neg hd4, if_pos hpre, hsplit]
  dsimp only
  rw [if_pos (pyIsdigit_natStr N)]
  rw [if_neg (show ¬((txt "week").isPrefixOf (txt "days") = true) from by decide)]
  rw [if_pos (show (txt "day").isPrefixOf (txt "days") = true from by decide)]
  rw [pyToNat_natStr]

theorem next_due_date_everyNweeks (due : PyDateTime) (N : Nat) :
    next_due_date (some due) (some (txt "every " ++ natStr N ++ txt " weeks")) =
      some (addSecs due ((N : Int) * (7 * 86400))) := by
  have hdays : txt " weeks" = ' ' :: txt "weeks" := rfl
  rw [hdays]
  have hl : pyLower (txt "every " ++ natStr N ++ (' ' :: txt "weeks"))
      = txt "every " ++ natStr N ++ (' ' :: txt "weeks") :=
    pyLower_every _ _ (natStr_lower_fix N) (by decide)
  have hs : pyStrip (txt "every " ++ natStr N ++ (' ' :: txt "weeks"))
      = txt "every " ++ natStr N ++ (' ' :: txt "weeks") :=
    pyStrip_every _ _ (by decide) (by decide)
  have hsplit : pySplitWS (txt "every " ++ natStr N ++ (' ' :: txt "weeks"))
      = [txt "every", natStr N, txt "weeks"] :=
    pySplitWS_every _ _ (natStr_ne_nil N) (natStr_nonspace N) (by decide) (by decide)
  have hpre : (txt "every ").isPrefixOf (txt "every " ++ natStr N ++ (' ' :: txt "weeks")) = true :=
    isPrefixOf_every _ _
  have hd1 : ¬(txt "every " ++ natStr N ++ (' ' :: txt "weeks") = txt "daily") := by
    intro h
    rw [show txt "every " ++ natStr N ++ (' ' :: txt "weeks")
        = 'e' :: ((txt "very " ++ natStr N) ++ (' ' :: txt "weeks")) from rfl] at h
    simp only [txt, List.cons.injEq] at h
    exact absurd h.1 (by decide)
  have hd2 : ¬(txt "every " ++ natStr N ++ (' ' :: txt "weeks") = txt "weekly") := by
    intro h
    rw [show txt "every " ++ natStr N ++ (' ' :: txt "weeks")
        = 'e' :: ((txt "very " ++ natStr N) ++ (' ' :: txt "weeks")) from rfl] at h
    simp only [txt, List.cons.injEq] at h
    exact absurd h.1 (by decide)
  have hd3 : ¬(txt "every " ++ natStr N ++ (' ' :: txt "weeks") = txt "monthly") := by
    intro h
    rw [show txt "every " ++ natStr N ++ (' ' :: txt "weeks")
        = 'e' :: ((txt "very " ++ natStr N) ++ (' ' :: txt "weeks")) from rfl] at h
    simp only [txt, List.cons.injEq] at h
    exact absurd h.1 (by decide)
  have hd4 : ¬(txt "every " ++ natStr N ++ (' ' :: txt "weeks") = txt "yearly") := by
    intro h
    rw [show txt "every " ++ natStr N ++ (' ' :: txt "weeks")
        = 'e' :: ((txt "very " ++ natStr N) ++ (' ' :: txt "weeks")) from rfl] at h
    simp only [txt, List.cons.injEq] at h
    exact absurd h.1 (by decide)
  have hempty : (txt "every " ++ natStr N ++ (' ' :: txt "weeks")).isEmpty = false := rfl
  simp only [next_due_date]
  rw [hempty]
  simp only [Bool.false_eq_true, if_false, hl, hs]
  rw [if_neg hd1, if_neg hd2, if_neg hd3, if_neg hd4, if_pos hpre, hsplit]
  dsimp only
  rw [if_pos (pyIsdigit_natStr N)]
  rw [if_pos (show (txt "week").isPrefixOf (txt "weeks") = true from by decide)]
  rw [pyToNat_natStr]


/-! ## Helper lemmas: the recurrence advancer -/

theorem addMonths_tod (due : PyDateTime) (m : Int) : (addMonths due m).tod = due.tod := rfl

theorem next_due_tod (due : PyDateTime) (hnorm : Normalized due) :
    ∀ rule r, next_due_date (some due) rule = some r → r.tod = due.tod := by
  intro rule r h
  match rule with
  | none => exact absurd h (by simp [next_due_date])
  | some rr =>
    simp only [next_due_date] at h
    split at h
    · exact absurd h (by simp)
    · split at h
      · cases h
        rw [show (86400 : Int) = 1 * 86400 from by norm_num, addSecs_whole_days due hnorm 1]
      · split at h
        · cases h
          rw [show (7 * 86400 : Int) = 7 * 86400 from rfl, addSecs_whole_days due hnorm 7]
        · split at h
          · cases h; rfl
          · split at h
            · cases h; rfl
            · split at h
              · split at h
                · split at h
                  · split at h
                    · cases h
                      rw [show (↑(pyToNat _) * (7 * 86400) : Int)
                          = (↑(pyToNat _) * 7) * 86400 from by ring,
                        addSecs_whole_days due hnorm _]
                    · split at h
                      · cases h
                        rw [addSecs_whole_days due hnorm _]
                      · exact absurd h (by simp)
                  · exact absurd h (by simp)
                · exact absurd h (by simp)
              · exact absurd h (by simp)

/-- The rule strings `next_due_date` recognizes, written as the claim
enumerates them: after lowercasing and stripping, one of the four fixed
cycles, or `every <digits> <unit>` with a `week`/`day`-prefixed unit. -/
def recognizedRule (rr : Str) : Bool :=
  if rr.isEmpty then false
  else
    let rule := pyStrip (pyLower rr)
    if rule = txt "daily" then true
    else if rule = txt "weekly" then true
    else if rule = txt "monthly" then true
    else if rule = txt "yearly" then true
    else if (txt "every ").isPrefixOf rule then
      match pySplitWS rule with
      | _ :: p1 :: p2 :: _ =>
        pyIsdigit p1 && ((txt "week").isPrefixOf p2 || (txt "day").isPrefixOf p2)
      | _ => false
    else false

theorem next_due_date_isSome (due : PyDateTime) (rr : Str) :
    (next_due_date (some due) (some rr)).isSome = recognizedRule rr := by
  simp only [next_due_date, recognizedRule]
  cases h0 : rr.isEmpty with
  | true => simp
  | false =>
    simp only [Bool.false_eq_true, if_false]
    by_cases h1 : pyStrip (pyLower rr) = txt "daily"
    · simp [h1]
    · simp only [h1, if_false]
      by_cases h2 : pyStrip (pyLower rr) = txt "weekly"
      · simp [h2]
      · simp only [h2, if_false]
        by_cases h3 : pyStrip (pyLower rr) = txt "monthly"
        · simp [h3]
        · simp only [h3, if_false]
          by_cases h4 : pyStrip (pyLower rr) = txt "yearly"
          · simp [h4]
          · simp only [h4, if_false]
            cases h5 : (txt "every ").isPrefixOf (pyStrip (pyLower rr)) with
            | false => simp [h5]
            | true =>
              simp only [h5, if_true]
              rcases h6 : pySplitWS (pyStrip (pyLower rr)) with _ | ⟨a, _ | ⟨b, _ | ⟨c, rest⟩⟩⟩
              · simp
              · simp
              · simp
              · cases h7 : pyIsdigit b with
                | false => simp [h7]
                | true =>
                  simp only [h7, Bool.true_and, if_true]
                  cases h8 : (txt "week").isPrefixOf c with
                  | true => simp [h8]
                  | false =>
                    simp only [h8, Bool.false_or, if_false]
                    cases h9 : (txt "day").isPrefixOf c with
                    | true => simp [h9]
                    | false => simp [h9]

theorem addSecsChecked_some (dt : PyDateTime) (delta : Int) (x : PyDateTime)
    (h : addSecsChecked dt delta = some x) : x = addSecs dt delta := by
  unfold addSecsChecked at h
  dsimp only at h
  split at h
  · cases h; rfl
  · cases h

theorem addMonthsChecked_some (dt : PyDateTime) (m : Int) (x : PyDateTime)
    (h : addMonthsChecked dt m = some x) : x = addMonths dt m := by
  unfold addMonthsChecked at h
  dsimp only at h
  split at h <;> split at h <;>
    first
    | exact (Option.some.inj h).symm
    | exact absurd h (by simp)

theorem next_due_dateChecked_agree (due : PyDateTime) (rr : Str) (out : Option PyDateTime)
    (h : next_due_dateChecked (some due) (some rr) = some out) :
    out = next_due_date (some due) (some rr) := by
  simp only [next_due_dateChecked, next_due_date] at h ⊢
  cases h0 : rr.isEmpty with
  | true => simp [h0] at h ⊢; exact h.symm
  | false =>
    simp only [h0, Bool.false_eq_true, if_false] at h ⊢
    by_cases h1 : pyStrip (pyLower rr) = txt "daily"
    · simp only [h1, if_true, Option.map_eq_some'] at h ⊢
      obtain ⟨x, hx, hout⟩ := h
      rw [← hout, addSecsChecked_some _ _ _ hx]
    · simp only [h1, if_false] at h ⊢
      by_cases h2 : pyStrip (pyLower rr) = txt "weekly"
      · simp only [h2, if_true, Option.map_eq_some'] at h ⊢
        obtain ⟨x, hx, hout⟩ := h
        rw [← hout, addSecsChecked_some _ _ _ hx]
      · simp only [h2, if_false] at h ⊢
        by_cases h3 : pyStrip (pyLower rr) = txt "monthly"
        · simp only [h3, if_true, Option.map_eq_some'] at h ⊢
          obtain ⟨x, hx, hout⟩ := h
          rw [← hout, addMonthsChecked_some _ _ _ hx]
        · simp only [h3, if_false] at h ⊢
          by_cases h4 : pyStrip (pyLower rr) = txt "yearly"
          · simp only [h4, if_true, Option.map_eq_some'] at h ⊢
            obtain ⟨x, hx, hout⟩ := h
            rw [← hout, addMonthsChecked_some _ _ _ hx]
          · simp only [h4, if_false] at h ⊢
            cases h5 : (txt "every ").isPrefixOf (pyStrip (pyLower rr)) with
            | false => simp [h5] at h ⊢; exact h.symm
            | true =>
              simp only [h5, if_true] at h ⊢
              rcases h6 : pySplitWS (pyStrip (pyLower rr)) with _ | ⟨a, _ | ⟨b, _ | ⟨c, rest⟩⟩⟩ <;>
                simp only [h6] at h ⊢
              · cases h; rfl
              · cases h; rfl
              · cases h; rfl
              · cases h7 : pyIsdigit b with
                | false => simp [h7] at h ⊢; exact h.symm
                | true =>
                  simp only [h7, if_true] at h ⊢
                  cases h8 : (txt "week").isPrefixOf c with
                  | true =>
                    simp only [h8, if_true, Option.map_eq_some'] at h ⊢
                    obtain ⟨x, hx, hout⟩ := h
                    rw [← hout, addSecsChecked_some _ _ _ hx]
                  | false =>
                    simp only [h8, Bool.false_eq_true, if_false] at h ⊢
                    cases h9 : (txt "day").isPrefixOf c with
                    | true =>
                      simp only [h9, if_true, Option.map_eq_some'] at h ⊢
                      obtain ⟨x, hx, hout⟩ := h
                      rw [← hout, addSecsChecked_some _ _ _ hx]
                    | false => simp [h9] at h ⊢; exact h.symm

/-! ## Claim C4 -/

/-- C4: the recurrence advancer `next_due_date` moves `daily` by exactly
one day, `weekly` by seven days, `every N days` by `N` days and
`every N weeks` by `7·N` days, preserving the time of day in every case;
`monthly` goes to the same day of the following month clamped to that
month's length (Jan 31 → Feb 28 in a non-leap year, Feb 29 in a leap
year), and `yearly` is the same with a 12-month step (Feb 29 of a leap
year → Feb 28 of the next year). -/
theorem C4_advancer_steps :
    (∀ due : PyDateTime, Normalized due →
      (next_due_date (some due) (some (txt "daily")) = some ⟨due.days + 1, due.tod⟩)
      ∧ (next_due_date (some due) (some (txt "weekly")) = some ⟨due.days + 7, due.tod⟩)
      ∧ (∀ N : Nat, next_due_date (some due) (some (txt "every " ++ natStr N ++ txt " days"))
          = some ⟨due.days + (N : Int), due.tod⟩)
      ∧ (∀ N : Nat, next_due_date (some due) (some (txt "every " ++ natStr N ++ txt " weeks"))
          = some ⟨due.days + 7 * (N : Int), due.tod⟩)
      ∧ (∀ rule r, next_due_date (some due) rule = some r → r.tod = due.tod))
    ∧ next_due_date (some (mkDT 2025 1 31 9 30)) (some (txt "monthly")) = some (mkDT 2025 2 28 9 30)
    ∧ next_due_date (some (mkDT 2024 1 31 9 30)) (some (txt "monthly")) = some (mkDT 2024 2 29 9 30)
    ∧ next_due_date (some (mkDT 2025 3 31 8 15)) (some (txt "monthly")) = some (mkDT 2025 4 30 8 15)
    ∧ next_due_date (some (mkDT 2024 2 29 8 0)) (some (txt "yearly")) = some (mkDT 2025 2 28 8 0) := by
  refine ⟨fun due hnorm => ⟨?_, ?_, ?_, ?_, next_due_tod due hnorm⟩,
    by decide, by decide, by decide, by decide⟩
  · rw [show next_due_date (some due) (some (txt "daily")) = some (addSecs due 86400) from rfl,
      show (86400 : Int) = 1 * 86400 from by norm_num, addSecs_whole_days due hnorm 1]
  · rw [show next_due_date (some due) (some (txt "weekly")) = some (addSecs due (7 * 86400)) from rfl,
      addSecs_whole_days due hnorm 7]
  · intro N
    rw [next_due_date_everyN due N, addSecs_whole_days due hnorm N]
  · intro N
    rw [next_due_date_everyNweeks due N,
      show ((N : Int) * (7 * 86400)) = (7 * (N : Int)) * 86400 from by ring,
      addSecs_whole_days due hnorm (7 * N)]

/-- Witness for C4 at a concrete task: a daily rule moves 2026-02-01 10:00
to the next day, keeping 10:00. -/
theorem C4_advancer_steps_witness :
    next_due_date (some (mkDT 2026 2 1 10 0)) (some (txt "daily"))
      = some ⟨(mkDT 2026 2 1 10 0).days + 1, (mkDT 2026 2 1 10 0).tod⟩
    ∧ (mkDT 2026 2 2 10 0).tod = (mkDT 2026 2 1 10 0).tod := by
  have h := C4_advancer_steps.1 (mkDT 2026 2 1 10 0) (by decide)
  exact ⟨h.1, h.2.2.2.2 (some (txt "daily")) (mkDT 2026 2 2 10 0) (by decide)⟩

/-! ## Claim C7 -/

/-- C7 (amended): `next_due_date` yields no result when the due time or
the rule is absent, and for a present pair yields a result exactly when
the rule is recognized; the bounded-calendar version agrees with it
whenever it returns normally — but at the edge of CPython's year range the
underlying `datetime` arithmetic raises instead (see the counterexample). -/
theorem C7_advancer_totality :
    (∀ rule, next_due_date none rule = none)
    ∧ (∀ due, next_due_date due none = none)
    ∧ (∀ (due : PyDateTime) (rr : Str),
        (next_due_date (some due) (some rr)).isSome = recognizedRule rr)
    ∧ (∀ (due : PyDateTime) (rr : Str) (out : Option PyDateTime),
        next_due_dateChecked (some due) (some rr) = some out →
          out = next_due_date (some due) (some rr)) := by
  refine ⟨?_, ?_, next_due_date_isSome, next_due_dateChecked_agree⟩
  · intro rule; cases rule <;> rfl
  · intro due; cases due <;> rfl

/-- Counterexample to C7 as stated: `daily` is a recognized rule and the
due time is present, yet at 9999-12-31 the addition overflows CPython's
`datetime` range and `next_due_date` raises (`none` in the checked model)
instead of returning a timestamp; `monthly` already raises in November
9999 because `_days_in_month` constructs `datetime(10000, 1, 1)`. -/
theorem C7_counterexample :
    recognizedRule (txt "daily") = true
    ∧ next_due_dateChecked (some (mkDT 9999 12 31 0 0)) (some (txt "daily")) = none
    ∧ next_due_dateChecked (some (mkDT 9999 11 30 0 0)) (some (txt "monthly")) = none := by
  refine ⟨by decide, by decide, by decide⟩

/-- Witness for C7 at a concrete task: completing a daily task inside the
calendar range returns normally and agrees with the ideal advancer. -/
theorem C7_advancer_totality_witness :
    (some (mkDT 2026 2 2 10 0) : Option PyDateTime)
      = next_due_date (some (mkDT 2026 2 1 10 0)) (some (txt "daily")) :=
  C7_advancer_totality.2.2.2 (mkDT 2026 2 1 10 0) (txt "daily")
    (some (mkDT 2026 2 2 10 0)) (by decide)

/-! ## Claim C10 -/

/-- C10: `next_due_date` is invariant under lowercasing and stripping the
rule argument — the advancer normalizes the rule with `.lower().strip()`
itself, and that normalization is idempotent. -/
theorem C10_rule_normalization_invariant (due : Option PyDateTime) (r : Str) :
    next_due_date due (some (pyStrip (pyLower r))) = next_due_date due (some r) := by
  match due with
  | none => rfl
  | some d =>
    by_cases hr : r = []
    · subst hr; rfl
    · simp only [next_due_date]
      rw [normRule_idem]
      by_cases hN : (pyStrip (pyLower r)).isEmpty
      · rw [List.isEmpty_iff.mp hN]
        have hre : r.isEmpty = false := by
          cases r with
          | nil => exact absurd rfl hr
          | cons a b => rfl
        simp only [List.isEmpty_nil, if_true, hre, Bool.false_eq_true, if_false]
        rfl
      · have hre : r.isEmpty = false := by
          cases r with
          | nil => exact absurd rfl hr
          | cons a b => rfl
        simp only [hre, Bool.false_eq_true, if_false]
        rw [Bool.eq_false_iff.mpr hN] at *
        simp only [Bool.false_eq_true, if_false]

/-! ## Claim C8 -/

/-- C8: the duration lexicon `_to_delta` maps an amount with a
minute-stem unit to `amount` minutes (60·amount seconds), an hour-stem
unit to hours, a week-stem unit to weeks, and defaults to days when no
stem matches; in particular each unit word of the duration pattern gets
`amount ×` its unit's seconds. -/
theorem C8_duration_lexicon (a : Int) :
    ((∀ u, (txt "мин").isPrefixOf u = true → toDelta a u = a * 60)
    ∧ (∀ u, (txt "час").isPrefixOf u = true → toDelta a u = a * 3600)
    ∧ (∀ u, (txt "нед").isPrefixOf u = true → toDelta a u = a * 604800)
    ∧ (∀ u, (txt "мин").isPrefixOf u = false → (txt "час").isPrefixOf u = false →
        (txt "нед").isPrefixOf u = false → toDelta a u = a * 86400))
    ∧ (toDelta a (txt "минут") = a * 60 ∧ toDelta a (txt "мин") = a * 60
    ∧ toDelta a (txt "час") = a * 3600 ∧ toDelta a (txt "часа") = a * 3600
    ∧ toDelta a (txt "часов") = a * 3600
    ∧ toDelta a (txt "день") = a * 86400 ∧ toDelta a (txt "дня") = a * 86400
    ∧ toDelta a (txt "дней") = a * 86400
    ∧ toDelta a (txt "неделю") = a * 604800 ∧ toDelta a (txt "недели") = a * 604800
    ∧ toDelta a (txt "недель") = a * 604800) := by
  refine ⟨⟨?_, ?_, ?_, ?_⟩,
    rfl, rfl, rfl, rfl, rfl, rfl, rfl, rfl, rfl, rfl, rfl⟩
  · intro u h
    unfold toDelta
    rw [if_pos h]
  · intro u h
    cases u with
    | nil => exact absurd h (by decide)
    | cons c rest =>
      have h' := h
      simp only [txt, List.isPrefixOf, Bool.and_eq_true, beq_iff_eq] at h'
      obtain ⟨hc, -⟩ := h'
      subst hc
      unfold toDelta
      rw [if_neg (show ¬((txt "мин").isPrefixOf ('ч' :: rest) = true) from fun hx => Bool.noConfusion hx), if_pos h]
  · intro u h
    cases u with
    | nil => exact absurd h (by decide)
    | cons c rest =>
      have h' := h
      simp only [txt, List.isPrefixOf, Bool.and_eq_true, beq_iff_eq] at h'
      obtain ⟨hc, -⟩ := h'
      subst hc
      unfold toDelta
      rw [if_neg (show ¬((txt "мин").isPrefixOf ('н' :: rest) = true) from fun hx => Bool.noConfusion hx),
        if_neg (show ¬((txt "час").isPrefixOf ('н' :: rest) = true) from fun hx => Bool.noConfusion hx), if_pos h]
  · intro u h1 h2 h3
    unfold toDelta
    rw [if_neg (by simp [h1]), if_neg (by simp [h2]), if_neg (by simp [h3])]

/-- Witness for C8: inflected unit words hit their stems, and a word with
no stem (`суток`) falls back to days. -/
theorem C8_duration_lexicon_witness :
    toDelta 5 (txt "минуты") = 5 * 60 ∧ toDelta 3 (txt "часика") = 3 * 3600
    ∧ toDelta 2 (txt "недельку") = 2 * 604800 ∧ toDelta 4 (txt "суток") = 4 * 86400 :=
  ⟨(C8_duration_lexicon 5).1.1 _ (by decide), (C8_duration_lexicon 3).1.2.1 _ (by decide),
    (C8_duration_lexicon 2).1.2.2.1 _ (by decide),
    (C8_duration_lexicon 4).1.2.2.2 _ (by decide) (by decide) (by decide)⟩

/-! ## Claim C2 -/

/-- Counterexample to C2: a daily task due two days before `now`
(2026-02-01 10:00, completed at 2026-02-03 10:00) is rescheduled by
`_complete_task` to 2026-02-02 10:00 — one single rule application — which
is strictly BEFORE `now`, and the reminder is dropped; the claim's
"new due time strictly after now" is false. -/
theorem C2_counterexample :
    complete_task
        ⟨some (mkDT 2026 2 1 10 0), some (mkDT 2026 2 1 9 0), some (txt "daily")⟩
        (mkDT 2026 2 3 10 0)
      = CompleteOutcome.rescheduled (mkDT 2026 2 2 10 0) none
    ∧ toSecs (mkDT 2026 2 2 10 0) < toSecs (mkDT 2026 2 3 10 0) := by
  refine ⟨by decide, by decide⟩

/-- C2 (amended): completion applies the recurrence rule exactly once —
the new due time is `next_due_date(due, rule)`, with no repeated
advancement, so an overdue task can stay in the past; the recomputed
reminder, when kept, is strictly after `now`. -/
theorem C2_single_advance :
    ∀ (t : TaskSched) (now : PyDateTime) (nd : PyDateTime) (nr : Option PyDateTime),
      complete_task t now = CompleteOutcome.rescheduled nd nr →
        next_due_date t.due_at t.repeat_rule = some nd
        ∧ (∀ c, nr = some c → toSecs now < toSecs c) := by
  intro t now nd nr h
  unfold complete_task at h
  split at h
  · split at h
    · cases h
      refine ⟨by assumption, ?_⟩
      intro c hc
      split at hc
      · split at hc
        · dsimp only at hc
          split at hc
          · cases hc; assumption
          · cases hc
        · cases hc
      · cases hc
    · cases h
  · cases h

/-- Witness for C2 (amended) at the counterexample's task: the single
advancement lands on 2026-02-02 10:00. -/
theorem C2_single_advance_witness :
    next_due_date (some (mkDT 2026 2 1 10 0)) (some (txt "daily")) = some (mkDT 2026 2 2 10 0) :=
  (C2_single_advance
    ⟨some (mkDT 2026 2 1 10 0), some (mkDT 2026 2 1 9 0), some (txt "daily")⟩
    (mkDT 2026 2 3 10 0) (mkDT 2026 2 2 10 0) none (by decide)).1

/-! ## Claim C5 -/

/-- The canonical repeat-rule forms exactly as claim C5 enumerates them:
the four fixed cycles, or `every N days` / `every N weeks` with `N` a
positive decimal integer. -/
def canonicalRepeat (r : Str) : Bool :=
  r == txt "daily" || r == txt "weekly" || r == txt "monthly" || r == txt "yearly" ||
  (if (txt "every ").isPrefixOf r then
    let rest := r.drop 6
    let ds := rest.takeWhile Char.isDigit
    let tail := rest.dropWhile Char.isDigit
    !ds.isEmpty && decide (1 ≤ pyToNat ds) && (tail == txt " days" || tail == txt " weeks")
  else false)

/-- Counterexample to C5: `_normalize_repeat` passes an unrecognized
LLM-supplied rule string straight through (only lowercased and stripped),
so `repeat_rule` can be present yet not a canonical form. -/
theorem C5_counterexample :
    normalize_repeat (some (txt "Fortnightly")) = some (txt "fortnightly")
    ∧ canonicalRepeat (txt "fortnightly") = false := by
  refine ⟨by decide, by decide⟩

/-- C5 (amended): the fallback extractor only ever emits the canonical
forms (with `N` the `int()` value of the matched digits, so `N = 0` is
possible); the LLM-path normalizer lowercases and strips, turns
`none`/`null`/empty into absent, and passes any other string through
unvalidated. -/
theorem C5_repeat_forms :
    (∀ text r, extract_repeat_rule text = some r →
      r = txt "daily" ∨ r = txt "weekly" ∨ r = txt "monthly" ∨ r = txt "yearly"
      ∨ (∃ n : Nat, r = txt "every " ++ natStr n ++ txt " days")
      ∨ (∃ n : Nat, r = txt "every " ++ natStr n ++ txt " weeks"))
    ∧ normalize_repeat none = none
    ∧ normalize_repeat (some []) = none
    ∧ normalize_repeat (some (txt "None")) = none
    ∧ normalize_repeat (some (txt " NULL ")) = none
    ∧ normalize_repeat (some (txt "Fortnightly")) = some (txt "fortnightly") := by
  refine ⟨?_, rfl, rfl, by decide, by decide, by decide⟩
  intro text r h
  unfold extract_repeat_rule at h
  split at h
  · cases h; exact Or.inl rfl
  · split at h
    · cases h; exact Or.inr (Or.inl rfl)
    · split at h
      · cases h; exact Or.inr (Or.inr (Or.inl rfl))
      · split at h
        · cases h; exact Or.inr (Or.inr (Or.inr (Or.inl rfl)))
        · split at h
          · split at h
            · cases h
              exact Or.inr (Or.inr (Or.inr (Or.inr (Or.inr ⟨pyToNat _, rfl⟩))))
            · cases h
              exact Or.inr (Or.inr (Or.inr (Or.inr (Or.inl ⟨pyToNat _, rfl⟩))))
          · cases h

/-- Witness for C5 (amended): the fallback output on `каждые 3 дня` is a
canonical `every N days` form. -/
theorem C5_repeat_forms_witness :
    txt "every 3 days" = txt "daily" ∨ txt "every 3 days" = txt "weekly"
    ∨ txt "every 3 days" = txt "monthly" ∨ txt "every 3 days" = txt "yearly"
    ∨ (∃ n : Nat, txt "every 3 days" = txt "every " ++ natStr n ++ txt " days")
    ∨ (∃ n : Nat, txt "every 3 days" = txt "every " ++ natStr n ++ txt " weeks") :=
  C5_repeat_forms.1 (txt "каждые 3 дня") (txt "every 3 days") (by decide)

/-! ## Claim C1 -/

/-- A `dateparser` oracle that resolves nothing (no date-like content
anywhere, as for texts without temporal phrases). -/
def dpNone : DPOracle := ⟨fun _ => none, fun _ => []⟩

/-- A `dateparser` oracle for `сегодня в 9` at 2026-01-01 12:00:
`сегодня` resolves to today (the relative base), the bare time token `9`
to 09:00 — the answers dateparser gives under `RELATIVE_BASE = now`. -/
def dpToday9 : DPOracle :=
  { parse := fun s =>
      if s = txt "сегодня" then some (mkDT 2026 1 1 12 0)
      else if s = txt "9" then some (mkDT 2026 1 1 9 0)
      else none
    searchDates := fun _ => [] }

/-- Counterexample to C1: the entry point can return a `remind_at` in the
past.  (1) On the LLM path, `_parse_with_perplexity` builds the
`ParsedTask` with `_parse_dt` and never compares `remind_at` with `now`:
an LLM answer carrying `remind_at = 2020-01-01T00:00` is returned as-is at
`now` = 2026-01-01 12:00.  (2) Even the fallback pipeline violates it:
for `сегодня в 9 напомни` at 12:00, the combined date assembly yields
today 09:00 without a future check, and the bare reminder-cue rule copies
that past due time into `remind_at`. -/
theorem C1_counterexample :
    ((parse_task_text true
        (some ⟨some (txt "зайти в вов"), none, some (txt "2020-01-01T00:00"),
          some (txt "2020-01-01T00:00"), none⟩)
        dpNone (txt "зайти в вов") (mkDT 2026 1 1 12 0)).remind_at
      = some (mkDT 2020 1 1 0 0)
    ∧ toSecs (mkDT 2020 1 1 0 0) < toSecs (mkDT 2026 1 1 12 0))
    ∧ ((parse_fallback dpToday9 (txt "сегодня в 9 напомни") (mkDT 2026 1 1 12 0)).remind_at
      = some (mkDT 2026 1 1 9 0)
    ∧ toSecs (mkDT 2026 1 1 9 0) < toSecs (mkDT 2026 1 1 12 0)) := by
  refine ⟨⟨by decide, by decide⟩, ⟨by decide, by decide⟩⟩

/-- C1 (amended): every `remind_at` computed by the reminder extraction
`_extract_remind_at` of the fallback pipeline is strictly after `now`, for
any resolver behaviour; the pipeline's due-into-remind copy and the LLM
path perform no such check (see the counterexample). -/
theorem C1_remind_extraction_future :
    ∀ (dp : DPOracle) (text : Str) (now : PyDateTime) (due : Option PyDateTime) (r : PyDateTime),
      extract_remind_at dp text now due = some r → toSecs now < toSecs r := by
  intro dp text now due r h
  unfold extract_remind_at at h
  split at h
  · dsimp only at h
    split at h
    · cases h
    · split at h
      · cases h; assumption
      · cases h
  · split at h
    · dsimp only at h
      split at h
      · cases h; assumption
      · cases h
    · split at h
      · split at h
        · split at h
          · cases h; assumption
          · cases h
        · cases h
      · cases h

/-- Witness for C1 (amended): `напомни через 2 часа 20 минут` at noon
yields a reminder at 14:20, after noon. -/
theorem C1_remind_extraction_future_witness :
    toSecs (mkDT 2026 1 1 12 0) < toSecs (mkDT 2026 1 1 14 20) :=
  C1_remind_extraction_future dpNone (txt "напомни через 2 часа 20 минут")
    (mkDT 2026 1 1 12 0) none (mkDT 2026 1 1 14 20) (by decide)

/-! ## Claim C3 -/

/-- The reminder resolution in the order claim C3 states it
(offset-before-due first, then absolute `напомни в`, then relative
`напомни через`); written only for comparison against the source order of
`extract_remind_at`. -/
def extract_remind_at_claimOrder (dp : DPOracle) (text : Str) (now : PyDateTime)
    (due_at : Option PyDateTime) : Option PyDateTime :=
  match searchG (fun s => (tryRemindOffset s).map Prod.fst) text, due_at with
  | some (ds, u), some due =>
    let delta := toDelta (pyToNat ds) (pyLower u)
    let remind := addSecs due (-delta)
    if toSecs now < toSecs remind then some remind else none
  | _, _ =>
    match searchG tryRemindAt text with
    | some tail =>
      match dp.parse tail with
      | some parsed => if toSecs now < toSecs parsed then some parsed else none
      | none => none
    | none =>
      match searchG tryRemindIn text with
      | some tail =>
        let delta := remindInDelta tail
        if delta = 0 then none
        else
          let remind := addSecs now delta
          if toSecs now < toSecs remind then some remind else none
      | none => none

/-- Counterexample to C3: on a text carrying both an offset phrase
(`напомни за 1 час`) and a relative phrase (`напомни через 2 часа`), the
source resolves the relative phrase (now + 2h = 14:00), while the claimed
offset-first order would resolve due − 1h = 16:00: the claimed try order
is not the implemented one. -/
theorem C3_counterexample :
    extract_remind_at dpNone (txt "сдать отчет напомни за 1 час напомни через 2 часа")
        (mkDT 2026 2 1 12 0) (some (mkDT 2026 2 1 17 0)) = some (mkDT 2026 2 1 14 0)
    ∧ extract_remind_at_claimOrder dpNone (txt "сдать отчет напомни за 1 час напомни через 2 часа")
        (mkDT 2026 2 1 12 0) (some (mkDT 2026 2 1 17 0)) = some (mkDT 2026 2 1 16 0)
    ∧ mkDT 2026 2 1 14 0 ≠ mkDT 2026 2 1 16 0 := by
  refine ⟨by decide, by decide, by decide⟩

/-- C3 (amended): the fallback reminder resolution tries the phrasings in
the order relative-reminder (`напомни через`) first, then
offset-before-due (`напомни за`, effective only with a due time), then
absolute-reminder (`напомни в`), and the first phrasing that applies
determines the result. -/
theorem C3_remind_priority :
    ∀ (dp : DPOracle) (text : Str) (now : PyDateTime) (due : Option PyDateTime),
      (∀ tail, searchG tryRemindIn text = some tail →
        extract_remind_at dp text now due =
          (if remindInDelta tail = 0 then none
           else if toSecs now < toSecs (addSecs now (remindInDelta tail))
             then some (addSecs now (remindInDelta tail)) else none))
      ∧ (searchG tryRemindIn text = none →
         ∀ ds u d, searchG (fun s => (tryRemindOffset s).map Prod.fst) text = some (ds, u) →
           due = some d →
           extract_remind_at dp text now due =
             (if toSecs now < toSecs (addSecs d (-(toDelta (pyToNat ds) (pyLower u))))
              then some (addSecs d (-(toDelta (pyToNat ds) (pyLower u)))) else none))
      ∧ (searchG tryRemindIn text = none →
         (searchG (fun s => (tryRemindOffset s).map Prod.fst) text = none ∨ due = none) →
           extract_remind_at dp text now due =
             (match searchG tryRemindAt text with
              | some tail =>
                match dp.parse tail with
                | some parsed => if toSecs now < toSecs parsed then some parsed else none
                | none => none
              | none => none)) := by
  intro dp text now due
  refine ⟨?_, ?_, ?_⟩
  · intro tail h
    unfold extract_remind_at
    simp only [h]
  · intro hin ds u d hoff hdue
    subst hdue
    unfold extract_remind_at
    simp only [hin, hoff]
  · intro hin hcase
    unfold extract_remind_at
    simp only [hin]
    rcases hcase with hoff | hdue
    · simp only [hoff]
    · subst hdue
      rcases hoffv : searchG (fun s => (tryRemindOffset s).map Prod.fst) text with _ | ⟨ds, u⟩ <;>
        simp only [hoffv]

/-- Witness for C3 (amended): on the two-phrase text the relative branch
decides the result. -/
theorem C3_remind_priority_witness :
    extract_remind_at dpNone (txt "сдать отчет напомни за 1 час напомни через 2 часа")
        (mkDT 2026 2 1 12 0) (some (mkDT 2026 2 1 17 0)) =
      (if remindInDelta (txt "2 часа") = 0 then none
       else if toSecs (mkDT 2026 2 1 12 0)
           < toSecs (addSecs (mkDT 2026 2 1 12 0) (remindInDelta (txt "2 часа")))
         then some (addSecs (mkDT 2026 2 1 12 0) (remindInDelta (txt "2 часа"))) else none) :=
  (C3_remind_priority dpNone (txt "сдать отчет напомни за 1 час напомни через 2 часа")
    (mkDT 2026 2 1 12 0) (some (mkDT 2026 2 1 17 0))).1 (txt "2 часа") (by decide)

/-! ## Claim C9 -/

theorem toDelta_nonneg (a : Int) (ha : 0 ≤ a) (u : Str) : 0 ≤ toDelta a u := by
  unfold toDelta
  split_ifs <;> omega

theorem remindInDelta_nonneg (tail : Str) : 0 ≤ remindInDelta tail := by
  unfold remindInDelta
  generalize findallG tryDurationPart tail = l
  suffices h : ∀ (l : List (Str × Str)) (acc : Int), 0 ≤ acc →
      0 ≤ l.foldl (fun acc du => acc + toDelta (pyToNat du.1) (pyLower du.2)) acc by
    exact h l 0 le_rfl
  intro l
  induction l with
  | nil => intro acc h; exact h
  | cons d t ih =>
    intro acc h
    simp only [List.foldl_cons]
    refine ih _ ?_
    have := toDelta_nonneg (pyToNat d.1) (by positivity) (pyLower d.2)
    omega

/-- C9: when the only resolved temporal signal is a relative-reminder
phrase (`напомни через <tail>`, with no due time found), the fallback
pipeline sets `remind_at = now +` the accumulated sum of all
quantity+unit duration phrases in the tail, and copies that value into
`due_at`. -/
theorem C9_bare_relative_reminder :
    ∀ (dp : DPOracle) (text : Str) (now : PyDateTime) (tail : Str),
      extract_due_date dp text now = none →
      searchG tryRemindIn text = some tail →
      remindInDelta tail ≠ 0 →
      (parse_fallback dp text now).remind_at = some (addSecs now (remindInDelta tail))
      ∧ (parse_fallback dp text now).due_at = some (addSecs now (remindInDelta tail)) := by
  intro dp text now tail hdue hin hδ
  have hpos : 0 < remindInDelta tail := by
    have := remindInDelta_nonneg tail
    omega
  have hr : extract_remind_at dp text now none = some (addSecs now (remindInDelta tail)) := by
    unfold extract_remind_at
    simp only [hin]
    rw [if_neg hδ, if_pos (by rw [toSecs_addSecs]; omega)]
  unfold parse_fallback
  simp only [hdue, hr]
  exact ⟨rfl, rfl⟩

/-- Witness for C9: `зайти в вов напомни через 2 часа 20 минут` with no
resolvable date yields one combined 2h20m delta as both reminder and due
time. -/
theorem C9_bare_relative_reminder_witness :
    (parse_fallback dpNone (txt "зайти в вов напомни через 2 часа 20 минут")
        (mkDT 2026 1 1 12 0)).remind_at
      = some (addSecs (mkDT 2026 1 1 12 0) (remindInDelta (txt "2 часа 20 минут")))
    ∧ (parse_fallback dpNone (txt "зайти в вов напомни через 2 часа 20 минут")
        (mkDT 2026 1 1 12 0)).due_at
      = some (addSecs (mkDT 2026 1 1 12 0) (remindInDelta (txt "2 часа 20 минут"))) :=
  C9_bare_relative_reminder dpNone (txt "зайти в вов напомни через 2 часа 20 минут")
    (mkDT 2026 1 1 12 0) (txt "2 часа 20 минут") (by decide) (by decide) (by decide)

/-! ## Claim C6 -/

/-- A `dateparser` oracle for scenario A at 2026-02-01 12:00: `завтра`
resolves to tomorrow at the relative base's time, the time phrase `15:00`
to today 15:00 — the standard dateparser answers under
`RELATIVE_BASE = now`, future-preferring. -/
def dp6 : DPOracle :=
  { parse := fun s =>
      if s = txt "завтра" then some (mkDT 2026 2 2 12 0)
      else if s = txt "15:00" then some (mkDT 2026 2 1 15 0)
      else none
    searchDates := fun _ => [] }

/-- Counterexample to C6: on scenario A's input the fallback pipeline
does produce due = D+1 15:00, remind = D+1 14:00 and no repeat rule, but
the title keeps the date phrase — `_cleanup_title` strips only reminder
and recurrence phrases, never date phrases — so the claimed title
`созвон с клиентом` is wrong. -/
theorem C6_counterexample :
    parse_fallback dp6 (txt "созвон с клиентом завтра в 15:00 напомни за 1 час")
        (mkDT 2026 2 1 12 0)
      = ⟨txt "созвон с клиентом завтра в 15:00", none, some (mkDT 2026 2 2 15 0),
          some (mkDT 2026 2 2 14 0), none⟩
    ∧ txt "созвон с клиентом завтра в 15:00" ≠ txt "созвон с клиентом" := by
  refine ⟨by decide, by decide⟩

/-- C6 (amended): for scenario A's input at now = 2026-02-01 12:00, with
any resolver giving the standard answers for `завтра` and `15:00`, the
fallback pipeline returns due = next day 15:00, remind = next day 14:00,
no repeat rule, and the title with only the reminder phrase removed:
`созвон с клиентом завтра в 15:00`. -/
theorem C6_scenario :
    ∀ dp : DPOracle,
      dp.parse (txt "завтра") = some (mkDT 2026 2 2 12 0) →
      dp.parse (txt "15:00") = some (mkDT 2026 2 1 15 0) →
      parse_fallback dp (txt "созвон с клиентом завтра в 15:00 напомни за 1 час")
          (mkDT 2026 2 1 12 0)
        = ⟨txt "созвон с клиентом завтра в 15:00", none, some (mkDT 2026 2 2 15 0),
            some (mkDT 2026 2 2 14 0), none⟩ := by
  intro dp h1 h2
  have hcomb : extract_date_with_time dp (txt "созвон с клиентом завтра в 15:00 напомни за 1 час")
      = some (mkDT 2026 2 2 15 0) := by
    unfold extract_date_with_time
    rw [show dateHintFound (txt "созвон с клиентом завтра в 15:00 напомни за 1 час") = true
        from by decide]
    rw [show searchDateWord (txt "созвон с клиентом завтра в 15:00 напомни за 1 час")
        = some (txt "завтра") from by decide]
    rw [show searchTimeToken (txt "созвон с клиентом завтра в 15:00 напомни за 1 час")
        = some (txt "15:00") from by decide]
    rw [show searchDayPart (txt "созвон с клиентом завтра в 15:00 напомни за 1 час")
        = none from by decide]
    simp only [h1]
    rw [show ((some (txt "15:00")).getD (txt "00:00") ++ ([] : Str)) = txt "15:00" from by decide]
    simp only [h2]
    decide
  have hdue : extract_due_date dp (txt "созвон с клиентом завтра в 15:00 напомни за 1 час")
      (mkDT 2026 2 1 12 0) = some (mkDT 2026 2 2 15 0) := by
    unfold extract_due_date
    rw [hcomb]
  have hrem : extract_remind_at dp (txt "созвон с клиентом завтра в 15:00 напомни за 1 час")
      (mkDT 2026 2 1 12 0) (some (mkDT 2026 2 2 15 0)) = some (mkDT 2026 2 2 14 0) := by
    unfold extract_remind_at
    rw [show searchG tryRemindIn (txt "созвон с клиентом завтра в 15:00 напомни за 1 час")
        = none from by decide]
    rw [show searchG (fun s => (tryRemindOffset s).map Prod.fst)
          (txt "созвон с клиентом завтра в 15:00 напомни за 1 час")
        = some (txt "1", txt "час") from by decide]
    dsimp only
    decide
  unfold parse_fallback
  simp only [hdue, hrem]
  rw [show cleanup_title (txt "созвон с клиентом завтра в 15:00 напомни за 1 час")
      = txt "созвон с клиентом завтра в 15:00" from by decide]
  rw [show extract_repeat_rule (txt "созвон с клиентом завтра в 15:00 напомни за 1 час")
      = none from by decide]
  decide

/-- Witness for C6 (amended), instantiating the resolver with `dp6`. -/
theorem C6_scenario_witness :
    parse_fallback dp6 (txt "созвон с клиентом завтра в 15:00 напомни за 1 час")
        (mkDT 2026 2 1 12 0)
      = ⟨txt "созвон с клиентом завтра в 15:00", none, some (mkDT 2026 2 2 15 0),
          some (mkDT 2026 2 2 14 0), none⟩ :=
  C6_scenario dp6 (by decide) (by decide)

end TgReminder
